import Mathlib

/-!
# LiveCode server back end for Mac (`engine/src/srvmac.cpp`)

A shallow embedding of two members of `MCMacSystem`:

* `Shell` : runs a command through `/bin/sh -s`, drains the combined output of
  the child through a non-blocking pipe and reaps the child;
* `ResolveNativePath` : tilde expansion followed by making the path absolute.

The operating system is not part of the program.  Every answer the kernel gives
to a system call made by the code is an explicit input (`Env`, `Step`,
`PathEnv`), and every system call the code makes is recorded, in program order,
in a trace of `Call`s.  Machine integers are `Nat`/`Int` with explicit wrapping.
-/

namespace SrvMac

/-! ## Machine arithmetic

A 32-bit quantity, signed or unsigned, is represented by its bit pattern, a
natural number below `2^32`; an `int` is the two's complement reading of the
pattern.  Unsigned addition and the conversion of an `int` operand to
`unsigned` are then addition of patterns modulo `2^32`. -/

/-- One byte of pipe data. -/
abbrev Byte := Nat

/-- Reduction of a natural number to 32 bits (conversion to `uint32_t`, or to
the bit pattern of an `int`). -/
def wrapU32 (n : Nat) : Nat := n % 4294967296

/-- The test `i <= 0` on the bit pattern of an `int`: zero, or sign bit set. -/
def int32NonPositive (bits : Nat) : Bool := bits = 0 ∨ 2147483648 ≤ bits

/-- Conversion of an `int`, given by its bit pattern, to the 64-bit `size_t`
count that `read` receives (sign extension). -/
def toSizeT (bits : Nat) : Nat :=
  if bits < 2147483648 then bits else 18446744069414584320 + bits

/-! ## Platform constants used by `Shell` -/

/-- Modelled from the spec: the "would-block" retryable error code; the value is
the one of `<sys/errno.h>` on the Mac, which the repository does not carry. -/
def EAGAIN : Int := 35

/-- Modelled from the spec: the second name of the "would-block" retryable code;
on the Mac `EWOULDBLOCK` is defined as `EAGAIN`. -/
def EWOULDBLOCK : Int := 35

/-- Modelled from the spec: the "interrupted" retryable error code of
`<sys/errno.h>`. -/
def EINTR : Int := 4

/-- Modelled from the spec: the forced-termination signal number of
`<signal.h>`. -/
def SIGKILL : Nat := 9

/-- Modelled from the spec: the platform's exit-status convention.  The macro of
`<sys/wait.h>` is `((status >> 8) & 0xff)`: the exit code is the second byte of
the wait status. -/
def WEXITSTATUS (status : Int) : Int := (status / 256) % 256

/-- Modelled from the spec: the wait status the kernel reports for a child that
called `exit code` (`W_EXITCODE(code, 0)` of `<sys/wait.h>`): the low byte of
the code, shifted into the second byte. -/
def exitedStatus (code : Nat) : Int := ((code % 256 : Nat) : Int) * 256

/-- Modelled from the spec: the wait status the kernel reports for a child that
was terminated by signal `sig` without a core file (`W_EXITCODE(0, sig)`): the
signal number in the low seven bits, nothing in the second byte. -/
def signaledStatus (sig : Nat) : Int := ((sig % 128 : Nat) : Int)

/-! ## System calls and the answers of the kernel -/

/-- A system (or allocator) call made by the parent side of `Shell`. -/
inductive Call
  | pipe
  | fork
  | close (fd : Int)
  | write (fd : Int) (bytes : List Byte)
  | fcntlGetFl (fd : Int)
  | fcntlSetFl (fd : Int)
  | ioctlFionread (fd : Int)
  | realloc (size : Nat)
  | read (fd : Int) (count : Nat)
  | poll (fd : Int)
  | waitpid (pid : Int) (nohang : Bool)
  | kill (pid : Int) (sig : Nat)
  | free
  deriving DecidableEq, Repr

/-- What one call of `read` on the child-to-parent pipe did: it stored `bs` and
returned `bs.length` (the zero-length read is `bytes []`), or it returned `-1`
with `errno` set. -/
inductive ReadOutcome
  | bytes (bs : List Byte)
  | fail (errno : Int)
  deriving DecidableEq, Repr

/-- The answers of the kernel during one iteration of the drain loop.
`fionread` is the count `ioctl(FIONREAD)` stores into `t_available` (0 when the
call fails and leaves the variable alone); `reallocOk` is consulted only when
the buffer has to grow, `poll` only after a retryable read error. -/
structure Step where
  fionread : Nat
  reallocOk : Bool
  read : ReadOutcome
  poll : Int
  deriving DecidableEq, Repr

/-- The answers of the kernel during one call of `Shell`.  Each `pipe` answers
with the two descriptors it opened, or `none` when it fails; `stackToChild` is
the indeterminate content of the local array `t_to_child`, which is what the
array still holds when `pipe` fails without filling it in.  `fork` is the
return value of `fork()`; `writeCommand` and `writeNewline` are the return
values of `write(t_to_child[1], p_cmd, p_cmd_length)` and
`write(t_to_child[1], "\n", 1)` (the number of bytes the pipe took, or -1),
which `Shell` does not look at; `steps` holds the answers to the iterations of
the drain loop, `waitNoHang` the return value of `waitpid(t_pid, &t_wait_stat, WNOHANG)`
and `statNoHang` the status it stores when it reaps the child, `statBlocking`
the status stored by the blocking `waitpid`, and `shrinkOk` tells whether the
final `realloc(t_data, t_length)` succeeds. -/
structure Env where
  pipeToParent : Option (Int × Int)
  pipeToChild : Option (Int × Int)
  stackToChild : Int × Int
  fork : Int
  writeCommand : Int
  writeNewline : Int
  steps : List Step
  waitNoHang : Int
  statNoHang : Int
  statBlocking : Int
  shrinkOk : Bool
  deriving Repr

/-- The three reference parameters of `Shell`, as the caller sees them.
`r_data = none` is the null pointer. -/
structure OutParams where
  r_data : Option (List Byte)
  r_data_length : Nat
  r_retcode : Int
  deriving DecidableEq, Repr

/-- What a returning call of `Shell` leaves behind. -/
structure ShellResult where
  ret : Bool
  out : OutParams
  trace : List Call
  deriving DecidableEq, Repr

/-- The ways a run of the model does not return to the caller of `Shell`:
the recorded answers end while the drain loop is still running, a `read`
stores bytes past the end of the allocated buffer (undefined behaviour), or
the process is the forked child, which goes on to `execl` or `_exit`. -/
inductive NoReturn
  | scriptExhausted
  | heapOverflow
  | childSide
  deriving DecidableEq, Repr

/-! ## The drain loop -/

/-- The local variables of the drain loop.  `t_data = none` is the null pointer;
otherwise it holds the bytes of the allocated block that have been stored. -/
structure DrainState where
  t_data : Option (List Byte)
  t_length : Nat
  t_capacity : Nat
  t_success : Bool
  deriving DecidableEq, Repr

/-- The values of the locals when the loop is entered. -/
def drainInit : DrainState :=
  { t_data := none, t_length := 0, t_capacity := 0, t_success := true }

/-- The test `errno == EAGAIN || errno == EWOULDBLOCK || errno == EINTR`. -/
def retryable (errno : Int) : Bool :=
  errno == EAGAIN || errno == EWOULDBLOCK || errno == EINTR

/-- Storing `bs` at offset `off` of a buffer. -/
def store (buf : List Byte) (off : Nat) (bs : List Byte) : List Byte :=
  buf.take off ++ bs ++ buf.drop (off + bs.length)

/-- How one iteration of the loop ends: at a `break`, at the closing brace
(the loop goes round again), or not at all. -/
inductive Iter
  | stop (st : DrainState) (calls : List Call)
  | again (st : DrainState) (calls : List Call)
  | fault (e : NoReturn)
  deriving DecidableEq, Repr

/-- The bit pattern of `t_available` after `t_available += 16384`. -/
def availableOf (s : Step) : Nat := wrapU32 (16384 + s.fionread)

/-- The value of the unsigned sum `t_length + t_available`. -/
def needOf (s : Step) (st : DrainState) : Nat :=
  wrapU32 (st.t_length + availableOf s)

/-- The calls of an iteration up to and including `read`. -/
def readCalls (fd : Int) (s : Step) (st : DrainState) : List Call :=
  (if needOf s st > st.t_capacity
    then [Call.ioctlFionread fd, Call.realloc (needOf s st)]
    else [Call.ioctlFionread fd]) ++ [Call.read fd (toSizeT (availableOf s))]

/-- The state after the capacity test of an iteration whose `realloc`, if any,
succeeded. -/
def grow (s : Step) (st : DrainState) : DrainState :=
  if needOf s st > st.t_capacity then
    { st with t_capacity := needOf s st, t_data := some (st.t_data.getD []) }
  else st

/-- The body of the loop `for(;;)` of `Shell`. -/
def iteration (fd : Int) (s : Step) (st : DrainState) : Iter :=
  if needOf s st > st.t_capacity ∧ s.reallocOk = false then
    Iter.stop { st with t_capacity := needOf s st, t_success := false }
      [Call.ioctlFionread fd, Call.realloc (needOf s st)]
  else
    let st1 := grow s st
    match s.read with
    | ReadOutcome.bytes bs =>
      if bs ≠ [] ∧ st1.t_length + bs.length > st1.t_capacity then
        Iter.fault NoReturn.heapOverflow
      else
        let st2 : DrainState :=
          if bs = [] then st1
          else { st1 with t_data := some (store (st1.t_data.getD []) st1.t_length bs) }
        let t_read : Nat := wrapU32 bs.length
        if int32NonPositive t_read then
          Iter.stop st2 (readCalls fd s st)
        else
          Iter.again { st2 with t_length := wrapU32 (st2.t_length + t_read) }
            (readCalls fd s st)
    | ReadOutcome.fail errno =>
      if retryable errno = false then
        Iter.stop st1 (readCalls fd s st)
      else if s.poll ≠ 1 then
        Iter.stop st1 (readCalls fd s st ++ [Call.poll fd])
      else
        Iter.again st1 (readCalls fd s st ++ [Call.poll fd])

/-- Puts the calls of one iteration in front of the calls of the rest of the
loop. -/
def withCalls (calls : List Call) :
    Except NoReturn (DrainState × List Call) → Except NoReturn (DrainState × List Call)
  | Except.ok (st, more) => Except.ok (st, calls ++ more)
  | Except.error e => Except.error e

/-- The loop `for(;;)` of `Shell`, one `Step` of answers per iteration.  The
result is the state at the `break` and the calls made by the loop. -/
def drain (fd : Int) : List Step → DrainState →
    Except NoReturn (DrainState × List Call)
  | [], _ => Except.error NoReturn.scriptExhausted
  | s :: rest, st =>
    match iteration fd s st with
    | Iter.stop st1 calls => Except.ok (st1, calls)
    | Iter.again st1 calls => withCalls calls (drain fd rest st1)
    | Iter.fault e => Except.error e

/-! ## `MCMacSystem::Shell` -/

/-- The calls of the parent between the two `pipe` calls and the drain loop.
The value each call returns is discarded, those of the two `write` calls
included: nothing below depends on them. -/
def parentSetup (t_to_parent t_to_child : Int × Int) (p_cmd : List Byte) :
    List Call :=
  [Call.pipe, Call.pipe, Call.fork,
   Call.close t_to_child.1,
   Call.write t_to_child.2 p_cmd,
   Call.write t_to_child.2 [10],
   Call.close t_to_child.2,
   Call.close t_to_parent.2,
   Call.fcntlGetFl t_to_parent.1,
   Call.fcntlSetFl t_to_parent.1]

/-- The assignment `x = v;` to a variable that holds `old`: the old value is
lost. -/
def assign (_old v : Int) : Int := v

/-- The reap step.  `waitpid(t_pid, &t_wait_stat, WNOHANG)` returns
`env.waitNoHang` and, when it reaps the child, leaves `env.statNoHang` in
`t_wait_stat`.  When it returned 0 the child is killed and waited for, and
`t_wait_stat` is what the blocking wait stored; otherwise the `else` branch
executes `t_wait_stat = 0;`.  The result is the final `t_wait_stat` and the
calls made. -/
def reap (env : Env) (t_pid : Int) : Int × List Call :=
  let t_wait_result := env.waitNoHang
  let t_wait_stat := env.statNoHang
  if t_wait_result = 0 then
    (assign t_wait_stat env.statBlocking,
     [Call.waitpid t_pid true, Call.kill t_pid SIGKILL, Call.waitpid t_pid false])
  else
    (assign t_wait_stat 0, [Call.waitpid t_pid true])

/-- The end of `Shell`, from `close(t_to_parent[0])` on, given the state the
drain loop ended in and the calls made before. -/
def finish (env : Env) (t_to_parent : Int × Int) (t_pid : Int) (out : OutParams)
    (st : DrainState) (sofar : List Call) : ShellResult :=
  let tr := sofar ++ [Call.close t_to_parent.1] ++ (reap env t_pid).2
  let t_wait_stat := (reap env t_pid).1
  if st.t_success then
    { ret := true,
      out :=
        { r_data := if env.shrinkOk
            then some ((st.t_data.getD []).take st.t_length) else none,
          r_data_length := st.t_length,
          r_retcode := WEXITSTATUS t_wait_stat },
      trace := tr ++ [Call.realloc st.t_length] }
  else
    { ret := false, out := out,
      trace := if st.t_data.isSome then tr ++ [Call.free] else tr }

/-- The parent side of `Shell`.  `p_cmd` is the `p_cmd_length` bytes at
`p_cmd`; `out` holds the values of the reference parameters at the call. -/
def Shell (env : Env) (p_cmd : List Byte) (out : OutParams) :
    Except NoReturn ShellResult :=
  match env.pipeToParent with
  | none => Except.ok { ret := false, out := out, trace := [Call.pipe] }
  | some t_to_parent =>
    match env.pipeToChild with
    | none =>
      Except.ok { ret := false, out := out,
                  trace := [Call.pipe, Call.pipe, Call.close env.stackToChild.1,
                            Call.close env.stackToChild.2] }
    | some t_to_child =>
      if env.fork = 0 then Except.error NoReturn.childSide
      else
        match drain t_to_parent.1 env.steps drainInit with
        | Except.error e => Except.error e
        | Except.ok (st, calls) =>
          Except.ok (finish env t_to_parent env.fork out st
            (parentSetup t_to_parent t_to_child p_cmd ++ calls))

/-! ## `MCMacSystem::ResolveNativePath`

A C string is modelled by the list of its characters before the terminator. -/

/-- The field of `struct passwd` the code reads: the home directory. -/
structure Passwd where
  pw_dir : List Char
  deriving DecidableEq, Repr

/-- The answers of the system during one call of `ResolveNativePath`:
`getpwuid(getuid())`, `getpwnam` as a function of the name it is given,
`GetCurrentFolder()` (which is `getcwd(NULL, 0)`, `none` when it returns null),
and `heapAfter`: the characters that happen to sit in memory after the bytes
`strncpy` wrote into the fresh block of `strndup`, up to the first zero byte. -/
structure PathEnv where
  getpwuid : Option Passwd
  getpwnam : List Char → Option Passwd
  getcwd : Option (List Char)
  heapAfter : List Char

/-- The library function `strchr`, as the offset of the first occurrence of `c`
in `s`; `none` is the null pointer. -/
def strchr (s : List Char) (c : Char) : Option Nat :=
  match s with
  | [] => none
  | x :: xs => if x = c then some 0 else (strchr xs c).map (fun i => i + 1)

/-- The static function `strndup` of the file: `r = new char[l + 1];
strncpy(r, s, l); return r;`.  `strncpy` pads with zero bytes only when `s` is
shorter than `l`; otherwise it writes `l` characters and no terminator, and the
string found at `r` runs on into `heapAfter`. -/
def strndup (heapAfter : List Char) (s : List Char) (l : Nat) : List Char :=
  if s.length < l then s else s.take l ++ heapAfter

/-- The offset `t_user_end - p_path`: the first `'/'`, or the end of the
string. -/
def userEnd (p_path : List Char) : Nat :=
  (strchr p_path '/').getD p_path.length

/-- The value of `t_password` for a path that starts with `'~'`. -/
def lookupPassword (env : PathEnv) (p_path : List Char) : Option Passwd :=
  if userEnd p_path = 1 then env.getpwuid
  else env.getpwnam (strndup env.heapAfter p_path (wrapU32 (userEnd p_path)))

/-- The value of `t_tilde_path` after the first `if` of `ResolveNativePath`. -/
def tildePath (env : PathEnv) (p_path : List Char) : List Char :=
  if p_path.head? = some '~' then
    match lookupPassword env p_path with
    | some t_password => t_password.pw_dir ++ p_path.drop (userEnd p_path)
    | none => p_path
  else p_path

/-- The member function `ResolveNativePath`.  The result is `none` when the
code passes the null pointer returned by `GetCurrentFolder` to `strlen`. -/
def ResolveNativePath (env : PathEnv) (p_path : List Char) : Option (List Char) :=
  let t_tilde_path := tildePath env p_path
  if t_tilde_path.head? ≠ some '/' then
    match env.getcwd with
    | some t_folder => some (t_folder ++ '/' :: t_tilde_path)
    | none => none
  else some t_tilde_path

/-! ## `MCStdioFileHandle` and `MCMacSystem::OpenFile` -/

/-- Modelled from the spec: the logical mode Write, second entry of
`s_modes`. -/
def kMCSystemFileModeWrite : Nat := 1

/-- Modelled from the spec: the logical mode Append, fourth entry of
`s_modes`. -/
def kMCSystemFileModeAppend : Nat := 3

/-- The member function `MCStdioFileHandle::Write`.  `fwrite` is the answer of
the C library: the number of bytes it accepted of the `p_length` bytes at
`p_buffer`.  The result is the return value and the value stored in the
32-bit `r_written`. -/
def MCStdioFileHandle.Write (fwrite : List Byte → Nat → Nat)
    (p_buffer : List Byte) (p_length : Nat) : Bool × Nat :=
  let t_amount := fwrite p_buffer p_length
  let r_written := wrapU32 t_amount
  if t_amount < p_length then (false, r_written) else (true, r_written)

/-! ## `MCS_get_temporary_folder` -/

/-- The surroundings of `MCS_get_temporary_folder`: the value of
`MCS_getenv("TMPDIR")` (`none` is the null pointer), and whether the allocation
made by the string copy succeeds. -/
structure TempEnv where
  tmpdir : Option (List Char)
  cloneOk : Bool
  deriving DecidableEq, Repr

/-- Modelled from the spec: the helper `MCCStringLength` of the core library,
which is not in the repository snapshot: the length of the string as a 32-bit
number. -/
def MCCStringLength (s : List Char) : Nat := wrapU32 s.length

/-- Modelled from the spec: the helper `MCCStringClone` of the core library:
when the allocation succeeds it stores a copy of `s` in `r_new` and returns
true, otherwise it returns false and leaves `r_new` alone. -/
def MCCStringClone (ok : Bool) (s : List Char) (r_new : Option (List Char)) :
    Bool × Option (List Char) :=
  if ok then (true, some s) else (false, r_new)

/-- Modelled from the spec: the helper `MCCStringCloneSubstring` of the core
library: as `MCCStringClone`, for the first `p_length` characters of `s`. -/
def MCCStringCloneSubstring (ok : Bool) (s : List Char) (p_length : Nat)
    (r_new : Option (List Char)) : Bool × Option (List Char) :=
  if ok then (true, some (s.take p_length)) else (false, r_new)

/-- The function `MCS_get_temporary_folder`.  `t_tmpdir_len` is an `int32_t`,
held as its bit pattern; the result is the return value and the value of
`r_temp_folder` at the return. -/
def MCS_get_temporary_folder (env : TempEnv) (r_temp_folder : Option (List Char)) :
    Bool × Option (List Char) :=
  let t_tmpdir : List Char :=
    match env.tmpdir with
    | none => "/tmp".toList
    | some value => value
  let t_tmpdir_len := MCCStringLength t_tmpdir
  if int32NonPositive t_tmpdir_len then (false, r_temp_folder)
  else if t_tmpdir[t_tmpdir_len - 1]? = some '/' then
    MCCStringCloneSubstring env.cloneOk t_tmpdir (t_tmpdir_len - 1) r_temp_folder
  else
    MCCStringClone env.cloneOk t_tmpdir r_temp_folder

/-! ## Properties of the calls made -/

/-- The calls the drain loop can make. -/
def Call.isLoopCall : Call → Bool
  | Call.ioctlFionread _ => true
  | Call.realloc _ => true
  | Call.read _ _ => true
  | Call.poll _ => true
  | _ => false

/-- The calls `finish` adds after the drain loop: closing the read end, the
reap step, and the final `realloc` or `free`. -/
def finishCalls (env : Env) (t_to_parent : Int × Int) (t_pid : Int)
    (st : DrainState) : List Call :=
  [Call.close t_to_parent.1, Call.waitpid t_pid true] ++
  (if env.waitNoHang = 0
    then [Call.kill t_pid SIGKILL, Call.waitpid t_pid false] else []) ++
  (if st.t_success then [Call.realloc st.t_length]
    else if st.t_data.isSome then [Call.free] else [])

/-! ## The output as the specification describes it -/

/-- An iteration whose `read` ends the loop: a zero-length read, an error that
is not retryable, or a retryable error followed by a readiness wait that does
not report exactly one ready descriptor. -/
def Step.stops (s : Step) : Bool :=
  match s.read with
  | ReadOutcome.bytes bs => bs.isEmpty
  | ReadOutcome.fail errno => !(retryable errno) || s.poll != 1

/-- The bytes one iteration's `read` delivered: none when it failed. -/
def Step.delivered (s : Step) : List Byte :=
  match s.read with
  | ReadOutcome.bytes bs => bs
  | ReadOutcome.fail _ => []

/-- The bytes delivered by the positive reads, in order, up to the first
iteration that stops. -/
def observedBytes : List Step → List Byte
  | [] => []
  | s :: rest => if s.stops then [] else s.delivered ++ observedBytes rest

/-- A well-formed answer: `FIONREAD` plus the slack fits an `int`, and `read`
returns no more bytes than the count it was given. -/
def Step.wellFormed (s : Step) : Prop :=
  16384 + s.fionread < 2147483648 ∧ s.delivered.length ≤ 16384 + s.fionread

instance (s : Step) : Decidable s.wellFormed := by
  unfold Step.wellFormed
  infer_instance

/-- The invariant of the drain loop while no allocation has failed and no
store has left the buffer: the buffer holds `content`, `t_length` is its
length, and the capacity is at least that and below `2^32`. -/
def DrainInv (st : DrainState) (content : List Byte) : Prop :=
  st.t_data.getD [] = content ∧ st.t_length = content.length ∧
  st.t_length ≤ st.t_capacity ∧ st.t_capacity < 4294967296 ∧
  st.t_success = true

/-- The state after the iterations `steps` when each of them goes round the
loop again; `none` when one of them breaks or does not return. -/
def stateAfter (fd : Int) : List Step → DrainState → Option DrainState
  | [], st => some st
  | s :: rest, st =>
    match iteration fd s st with
    | Iter.again st1 _ => stateAfter fd rest st1
    | _ => none


/-- The calls made by the iterations `steps` when each of them goes round the
loop again; the list ends where `stateAfter` gives `none`. -/
def callsAlong (fd : Int) : List Step → DrainState → List Call
  | [], _ => []
  | s :: rest, st =>
    match iteration fd s st with
    | Iter.again st1 calls => calls ++ callsAlong fd rest st1
    | _ => []

/-- A state in which a block is allocated whenever the capacity or the length
is not zero. -/
def BufferHeld (st : DrainState) : Prop :=
  (0 < st.t_capacity → st.t_data.isSome = true) ∧
  (0 < st.t_length → st.t_data.isSome = true)

/-! ## What the child finds on its input -/

/-- The bytes of the command `false`. -/
def cmdFalse : List Byte := [102, 97, 108, 115, 101]

/-- The bytes of the command `true`. -/
def cmdTrue : List Byte := [116, 114, 117, 101]

/-- The reference parameters of a caller that passes fresh variables. -/
def out0 : OutParams := { r_data := none, r_data_length := 0, r_retcode := 0 }

/-- One iteration in which nothing is available and `read` returns 0. -/
def eofStep : Step :=
  { fionread := 0, reallocOk := true, read := ReadOutcome.bytes [], poll := 0 }

/-- A run of `false`: descriptors 3 to 6, child 100, both writes taken in full,
no output; the child has exited with status 1 when the parent reaps it. -/
def falseEnv : Env :=
  { pipeToParent := some (3, 4)
    pipeToChild := some (5, 6)
    stackToChild := (0, 0)
    fork := 100
    writeCommand := 5
    writeNewline := 1
    steps := [eofStep]
    waitNoHang := 100
    statNoHang := exitedStatus 1
    statBlocking := 0
    shrinkOk := true }

/-- A run of `true`: as `falseEnv`, the child has exited with status 0. -/
def trueEnv : Env :=
  { pipeToParent := some (3, 4)
    pipeToChild := some (5, 6)
    stackToChild := (0, 0)
    fork := 100
    writeCommand := 4
    writeNewline := 1
    steps := [eofStep]
    waitNoHang := 100
    statNoHang := exitedStatus 0
    statBlocking := 0
    shrinkOk := true }

/-- A run whose child has closed its output but is still running at reap time:
the first wait returns 0, the blocking wait reports death by `SIGKILL`. -/
def killedEnv : Env :=
  { pipeToParent := some (3, 4)
    pipeToChild := some (5, 6)
    stackToChild := (0, 0)
    fork := 100
    writeCommand := 4
    writeNewline := 1
    steps := [eofStep]
    waitNoHang := 0
    statNoHang := 0
    statBlocking := signaledStatus SIGKILL
    shrinkOk := true }

/-- The first `pipe` gives descriptors 3 and 4, the second `pipe` fails and
leaves `t_to_child` as it was (here: two zeroes). -/
def secondPipeFailsEnv : Env :=
  { pipeToParent := some (3, 4)
    pipeToChild := none
    stackToChild := (0, 0)
    fork := 100
    writeCommand := 0
    writeNewline := 0
    steps := []
    waitNoHang := 0
    statNoHang := 0
    statBlocking := 0
    shrinkOk := true }

/-- Both pipes are created, `fork` returns -1; the parent-to-child pipe has no
reader, so both writes fail; the other pipe has no writer left once the parent
has closed its copy, so the first `read` returns 0; `waitpid` fails with -1. -/
def forkFailsEnv : Env :=
  { pipeToParent := some (3, 4)
    pipeToChild := some (5, 6)
    stackToChild := (0, 0)
    fork := -1
    writeCommand := -1
    writeNewline := -1
    steps := [eofStep]
    waitNoHang := -1
    statNoHang := 0
    statBlocking := 0
    shrinkOk := true }

/-- A run with output: 5 bytes, a would-block answered by a successful `poll`,
3 more bytes, then end of file; the child has exited with status 0. -/
def outputEnv : Env :=
  { pipeToParent := some (3, 4)
    pipeToChild := some (5, 6)
    stackToChild := (0, 0)
    fork := 100
    writeCommand := 4
    writeNewline := 1
    steps :=
      [{ fionread := 5, reallocOk := true,
         read := ReadOutcome.bytes [104, 101, 108, 108, 111], poll := 0 },
       { fionread := 0, reallocOk := true, read := ReadOutcome.fail 35, poll := 1 },
       { fionread := 3, reallocOk := true,
         read := ReadOutcome.bytes [33, 33, 10], poll := 0 },
       eofStep]
    waitNoHang := 100
    statNoHang := exitedStatus 0
    statBlocking := 0
    shrinkOk := true }

/-- As `outputEnv`, but the buffer cannot grow in the third iteration, and the
child is still running at reap time. -/
def growFailsEnv : Env :=
  { pipeToParent := some (3, 4)
    pipeToChild := some (5, 6)
    stackToChild := (0, 0)
    fork := 100
    writeCommand := 4
    writeNewline := 1
    steps :=
      [{ fionread := 5, reallocOk := true,
         read := ReadOutcome.bytes [104, 101, 108, 108, 111], poll := 0 },
       { fionread := 0, reallocOk := true, read := ReadOutcome.fail 35, poll := 1 },
       { fionread := 3, reallocOk := false,
         read := ReadOutcome.bytes [33, 33, 10], poll := 0 },
       eofStep]
    waitNoHang := 0
    statNoHang := 0
    statBlocking := signaledStatus SIGKILL
    shrinkOk := true }

/-- One iteration of a child that keeps the pipe full: 49152 bytes are reported
available, so `read` is given room for 65536 bytes and returns that many. -/
def fullStep : Step :=
  { fionread := 49152, reallocOk := true,
    read := ReadOutcome.bytes (List.replicate 65536 0), poll := 0 }

/-- A child that writes 4 GiB and exits with status 0: 65536 reads of 65536
bytes each, then end of file.  Every allocation succeeds. -/
def fourGiBEnv : Env :=
  { pipeToParent := some (3, 4)
    pipeToChild := some (5, 6)
    stackToChild := (0, 0)
    fork := 100
    writeCommand := 4
    writeNewline := 1
    steps := List.replicate 65536 fullStep ++ [eofStep]
    waitNoHang := 100
    statNoHang := exitedStatus 0
    statBlocking := 0
    shrinkOk := true }


/-- A system whose current directory is `/home/u`, whose calling user has the
home directory `/home/u`, and whose account database knows no account by
name. -/
def homeEnv : PathEnv :=
  { getpwuid := some { pw_dir := "/home/u".toList }
    getpwnam := fun _ => none
    getcwd := some "/home/u".toList
    heapAfter := [] }

/-- A system whose current directory is `/home/u`, whose calling user has the
home directory `/Users/me`, and whose account database maps the account name
`alice` to the home directory `/Users/alice` and knows no other name.  The byte
after the characters copied by `strndup` happens to be zero. -/
def aliceEnv : PathEnv :=
  { getpwuid := some { pw_dir := "/Users/me".toList }
    getpwnam := fun name =>
      if name = "alice".toList then some { pw_dir := "/Users/alice".toList } else none
    getcwd := some "/home/u".toList
    heapAfter := [] }

/-- A stream that takes only the first 3 bytes of any request. -/
def fwriteThree : List Byte → Nat → Nat := fun _ n => min n 3

/-- Reference parameters that still hold the output of an earlier,
successful call: 3 bytes and exit code 7. -/
def outStale : OutParams :=
  { r_data := some [1, 2, 3], r_data_length := 3, r_retcode := 7 }

/-! # Theorems -/

theorem withCalls_ok {calls : List Call}
    {r : Except NoReturn (DrainState × List Call)} {st : DrainState}
    {all : List Call} (h : withCalls calls r = Except.ok (st, all)) :
    ∃ more, r = Except.ok (st, more) ∧ all = calls ++ more := by
  cases r with
  | error e => simp [withCalls] at h
  | ok v =>
    obtain ⟨st1, more⟩ := v
    simp only [withCalls, Except.ok.injEq, Prod.mk.injEq] at h
    exact ⟨more, by rw [h.1], h.2.symm⟩

theorem readCalls_loop (fd : Int) (s : Step) (st : DrainState) :
    ∀ c ∈ readCalls fd s st, c.isLoopCall = true := by
  intro c hc
  unfold readCalls at hc
  split at hc <;> simp at hc <;> rcases hc with rfl | rfl | rfl <;> rfl

theorem readCalls_poll_loop (fd : Int) (s : Step) (st : DrainState) :
    ∀ c ∈ readCalls fd s st ++ [Call.poll fd], c.isLoopCall = true := by
  intro c hc
  rw [List.mem_append] at hc
  rcases hc with hc | hc
  · exact readCalls_loop fd s st c hc
  · simp at hc; subst hc; rfl

/-- The calls of an iteration are one of three lists. -/
theorem iteration_calls_cases (fd : Int) (s : Step) (st st1 : DrainState)
    (calls : List Call)
    (h : iteration fd s st = Iter.stop st1 calls ∨
         iteration fd s st = Iter.again st1 calls) :
    calls = [Call.ioctlFionread fd, Call.realloc (needOf s st)] ∨
    calls = readCalls fd s st ∨ calls = readCalls fd s st ++ [Call.poll fd] := by
  unfold iteration at h
  by_cases h0 : needOf s st > st.t_capacity ∧ s.reallocOk = false
  · rw [if_pos h0] at h
    rcases h with h | h
    · injection h with _ h2
      exact Or.inl h2.symm
    · exact Iter.noConfusion h
  · rw [if_neg h0] at h
    cases hr : s.read with
    | bytes bs =>
      rw [hr] at h
      dsimp only at h
      by_cases h1 : bs ≠ [] ∧ (grow s st).t_length + bs.length > (grow s st).t_capacity
      · rw [if_pos h1] at h
        rcases h with h | h <;> exact Iter.noConfusion h
      · rw [if_neg h1] at h
        by_cases h2 : int32NonPositive (wrapU32 bs.length) = true
        · rw [if_pos h2] at h
          rcases h with h | h
          · injection h with _ h2
            exact Or.inr (Or.inl h2.symm)
          · exact Iter.noConfusion h
        · rw [if_neg h2] at h
          rcases h with h | h
          · exact Iter.noConfusion h
          · injection h with _ h2
            exact Or.inr (Or.inl h2.symm)
    | fail e =>
      rw [hr] at h
      dsimp only at h
      by_cases h1 : retryable e = false
      · rw [if_pos h1] at h
        rcases h with h | h
        · injection h with _ h2
          exact Or.inr (Or.inl h2.symm)
        · exact Iter.noConfusion h
      · rw [if_neg h1] at h
        by_cases h2 : s.poll ≠ 1
        · rw [if_pos h2] at h
          rcases h with h | h
          · injection h with _ h2
            exact Or.inr (Or.inr h2.symm)
          · exact Iter.noConfusion h
        · rw [if_neg h2] at h
          rcases h with h | h
          · exact Iter.noConfusion h
          · injection h with _ h2
            exact Or.inr (Or.inr h2.symm)

/-- One iteration only makes `ioctl`, `realloc`, `read` and `poll` calls. -/
theorem iteration_calls_loop (fd : Int) (s : Step) (st st1 : DrainState)
    (calls : List Call)
    (h : iteration fd s st = Iter.stop st1 calls ∨
         iteration fd s st = Iter.again st1 calls) :
    ∀ c ∈ calls, c.isLoopCall = true := by
  rcases iteration_calls_cases fd s st st1 calls h with rfl | rfl | rfl
  · intro c hc
    rcases List.mem_cons.1 hc with rfl | hc
    · rfl
    · rcases List.mem_cons.1 hc with rfl | hc
      · rfl
      · exact absurd hc (List.not_mem_nil c)
  · exact readCalls_loop fd s st
  · exact readCalls_poll_loop fd s st

/-- The drain loop only makes `ioctl`, `realloc`, `read` and `poll` calls. -/
theorem drain_calls_loop (fd : Int) (steps : List Step) :
    ∀ (st st1 : DrainState) (calls : List Call),
      drain fd steps st = Except.ok (st1, calls) →
      ∀ c ∈ calls, c.isLoopCall = true := by
  induction steps with
  | nil => intro st st1 calls h; simp [drain] at h
  | cons s rest ih =>
    intro st st1 calls h
    rw [drain] at h
    cases hit : iteration fd s st with
    | stop st2 calls2 =>
      rw [hit] at h
      simp only [Except.ok.injEq, Prod.mk.injEq] at h
      obtain ⟨rfl, rfl⟩ := h
      exact iteration_calls_loop fd s st _ _ (Or.inl hit)
    | again st2 calls2 =>
      rw [hit] at h
      obtain ⟨more, hmore, rfl⟩ := withCalls_ok h
      intro c hc
      rw [List.mem_append] at hc
      rcases hc with hc | hc
      · exact iteration_calls_loop fd s st _ _ (Or.inr hit) c hc
      · exact ih _ _ _ hmore c hc
    | fault e =>
      rw [hit] at h
      simp at h

/-- When both pipes exist and the process is the parent, `Shell` returns as
soon as the drain loop ends, with the result `finish` computes. -/
theorem Shell_of_drain (env : Env) (p_cmd : List Byte) (out : OutParams)
    (tp tc : Int × Int) (st : DrainState) (calls : List Call)
    (hp : env.pipeToParent = some tp) (hc : env.pipeToChild = some tc)
    (hf : env.fork ≠ 0)
    (hd : drain tp.1 env.steps drainInit = Except.ok (st, calls)) :
    Shell env p_cmd out =
      Except.ok (finish env tp env.fork out st (parentSetup tp tc p_cmd ++ calls)) := by
  simp [Shell, hp, hc, hf, hd]

/-! ## The end of `Shell` -/

/-- The trace of `finish` is the calls made so far followed by
`finishCalls`. -/
theorem finish_trace (env : Env) (tp : Int × Int) (t_pid : Int) (out : OutParams)
    (st : DrainState) (sofar : List Call) :
    (finish env tp t_pid out st sofar).trace = sofar ++ finishCalls env tp t_pid st := by
  unfold finish finishCalls reap
  by_cases h0 : env.waitNoHang = 0 <;> by_cases hs : st.t_success = true <;>
    by_cases hd : st.t_data.isSome = true <;> simp [h0, hs, hd]

/-- The return value of `finish` is `t_success`. -/
theorem finish_ret (env : Env) (tp : Int × Int) (t_pid : Int) (out : OutParams)
    (st : DrainState) (sofar : List Call) :
    (finish env tp t_pid out st sofar).ret = st.t_success := by
  unfold finish
  by_cases hs : st.t_success = true
  · rw [if_pos hs, hs]
  · rw [if_neg hs]
    simpa using hs

/-- On the failure path `finish` leaves the reference parameters alone. -/
theorem finish_out_of_failure (env : Env) (tp : Int × Int) (t_pid : Int)
    (out : OutParams) (st : DrainState) (sofar : List Call)
    (hs : st.t_success = false) :
    (finish env tp t_pid out st sofar).out = out := by
  unfold finish
  rw [hs]
  rfl

/-- On the success path the exit code is `WEXITSTATUS` of the final
`t_wait_stat` of the reap step. -/
theorem finish_retcode (env : Env) (tp : Int × Int) (t_pid : Int)
    (out : OutParams) (st : DrainState) (sofar : List Call)
    (hs : st.t_success = true) :
    (finish env tp t_pid out st sofar).out.r_retcode =
      WEXITSTATUS (if env.waitNoHang = 0 then env.statBlocking else 0) := by
  unfold finish reap assign
  rw [if_pos hs]
  by_cases h0 : env.waitNoHang = 0
  · simp [h0]
  · simp [h0]

/-- A list of loop calls contains no `close`. -/
theorem count_close_of_loop (calls : List Call) (fd : Int)
    (h : ∀ c ∈ calls, c.isLoopCall = true) : calls.count (Call.close fd) = 0 := by
  apply List.count_eq_zero_of_not_mem
  intro hmem
  have := h _ hmem
  simp [Call.isLoopCall] at this

/-- The calls after the loop close the read end of the child-to-parent pipe
once and nothing else. -/
theorem count_close_finishCalls (env : Env) (tp : Int × Int) (t_pid : Int)
    (st : DrainState) (fd : Int) :
    (finishCalls env tp t_pid st).count (Call.close fd) = if fd = tp.1 then 1 else 0 := by
  unfold finishCalls
  by_cases hfd : fd = tp.1
  · subst hfd
    by_cases h0 : env.waitNoHang = 0 <;> by_cases hs : st.t_success = true <;>
      by_cases hd : st.t_data.isSome = true <;>
      simp [h0, hs, hd, List.count_cons]
  · have hfd2 : ¬ tp.1 = fd := fun h => hfd h.symm
    by_cases h0 : env.waitNoHang = 0 <;> by_cases hs : st.t_success = true <;>
      by_cases hd : st.t_data.isSome = true <;>
      simp [h0, hs, hd, hfd, hfd2, List.count_cons]

/-! ## The drain loop, one iteration at a time -/

theorem drain_nil (fd : Int) (st : DrainState) :
    drain fd [] st = Except.error NoReturn.scriptExhausted := rfl

theorem drain_cons (fd : Int) (s : Step) (rest : List Step) (st : DrainState) :
    drain fd (s :: rest) st =
      match iteration fd s st with
      | Iter.stop st1 calls => Except.ok (st1, calls)
      | Iter.again st1 calls => withCalls calls (drain fd rest st1)
      | Iter.fault e => Except.error e := rfl

theorem drain_of_stop (fd : Int) (s : Step) (rest : List Step)
    (st st1 : DrainState) (calls : List Call)
    (h : iteration fd s st = Iter.stop st1 calls) :
    drain fd (s :: rest) st = Except.ok (st1, calls) := by
  rw [drain_cons, h]

theorem drain_of_again (fd : Int) (s : Step) (rest : List Step)
    (st st1 : DrainState) (calls : List Call)
    (h : iteration fd s st = Iter.again st1 calls) :
    drain fd (s :: rest) st = withCalls calls (drain fd rest st1) := by
  rw [drain_cons, h]

theorem drain_of_fault (fd : Int) (s : Step) (rest : List Step)
    (st : DrainState) (e : NoReturn)
    (h : iteration fd s st = Iter.fault e) :
    drain fd (s :: rest) st = Except.error e := by
  rw [drain_cons, h]

theorem drainInit_inv : DrainInv drainInit [] :=
  ⟨rfl, rfl, Nat.le_refl _, by decide, rfl⟩

theorem needOf_lt (s : Step) (st : DrainState) : needOf s st < 4294967296 := by
  unfold needOf wrapU32
  omega

theorem needOf_eq (s : Step) (st : DrainState)
    (h : st.t_length + (16384 + s.fionread) < 4294967296) :
    needOf s st = st.t_length + (16384 + s.fionread) := by
  unfold needOf availableOf wrapU32
  omega

/-- Storing at the end of the stored bytes appends. -/
theorem store_at_end (content bs : List Byte) :
    store content content.length bs = content ++ bs := by
  unfold store
  rw [List.take_length, List.drop_eq_nil_of_le (Nat.le_add_right _ _),
    List.append_nil]

theorem int32NonPositive_of_pos (n : Nat) (h0 : 0 < n) (h1 : n < 2147483648) :
    int32NonPositive (wrapU32 n) = false := by
  unfold int32NonPositive wrapU32
  rw [decide_eq_false_iff_not]
  omega

/-- The capacity test keeps the invariant and leaves room for `needOf`. -/
theorem grow_inv (s : Step) (st : DrainState) (content : List Byte)
    (h : DrainInv st content) :
    DrainInv (grow s st) content ∧ needOf s st ≤ (grow s st).t_capacity := by
  obtain ⟨h1, h2, h3, h4, h5⟩ := h
  unfold grow
  by_cases hg : needOf s st > st.t_capacity
  · rw [if_pos hg]
    refine ⟨⟨h1, h2, ?_, needOf_lt s st, h5⟩, Nat.le_refl _⟩
    show st.t_length ≤ needOf s st
    omega
  · rw [if_neg hg]
    exact ⟨⟨h1, h2, h3, h4, h5⟩, by omega⟩

/-- With a successful allocator the first `if` of the loop body is not
taken. -/
theorem not_grow_failure (s : Step) (st : DrainState) (hok : s.reallocOk = true) :
    ¬ (needOf s st > st.t_capacity ∧ s.reallocOk = false) := by
  rintro ⟨_, h⟩
  rw [hok] at h
  exact Bool.noConfusion h

/-- A positive read inside the 32-bit range appends its bytes and the loop goes
on. -/
theorem iteration_positive_read (fd : Int) (s : Step) (st : DrainState)
    (content bs : List Byte)
    (hinv : DrainInv st content) (hr : s.read = ReadOutcome.bytes bs)
    (hne : bs ≠ []) (hok : s.reallocOk = true)
    (hcount : bs.length ≤ 16384 + s.fionread)
    (hint : 16384 + s.fionread < 2147483648)
    (hfit : content.length + (16384 + s.fionread) < 4294967296) :
    ∃ st1, iteration fd s st = Iter.again st1 (readCalls fd s st) ∧
      DrainInv st1 (content ++ bs) := by
  obtain ⟨⟨g1, g2, g3, g4, g5⟩, g6⟩ := grow_inv s st content hinv
  have hlen : st.t_length = content.length := hinv.2.1
  have hneed := needOf_eq s st (by rw [hlen]; exact hfit)
  have hpos : 0 < bs.length := List.length_pos.2 hne
  have hroom : ¬ (bs ≠ [] ∧ (grow s st).t_length + bs.length > (grow s st).t_capacity) := by
    rintro ⟨_, h⟩
    omega
  unfold iteration
  rw [if_neg (not_grow_failure s st hok), hr]
  dsimp only
  rw [if_neg hroom, if_neg hne, int32NonPositive_of_pos _ hpos (by omega)]
  refine ⟨_, rfl, ?_, ?_, ?_, ?_, g5⟩
  · show (some (store ((grow s st).t_data.getD []) (grow s st).t_length bs)).getD [] = _
    rw [g1, g2, store_at_end]
    rfl
  · show wrapU32 ((grow s st).t_length + wrapU32 bs.length) = (content ++ bs).length
    rw [List.length_append, g2]
    unfold wrapU32
    omega
  · show wrapU32 ((grow s st).t_length + wrapU32 bs.length) ≤ (grow s st).t_capacity
    rw [g2]
    unfold wrapU32
    omega
  · exact g4

/-- An iteration that does not store anything and stops keeps the
invariant. -/
theorem iteration_stop (fd : Int) (s : Step) (st : DrainState)
    (content : List Byte)
    (hinv : DrainInv st content) (hstop : s.stops = true)
    (hok : s.reallocOk = true) :
    ∃ st1 calls, iteration fd s st = Iter.stop st1 calls ∧ DrainInv st1 content := by
  obtain ⟨ginv, _⟩ := grow_inv s st content hinv
  unfold iteration
  rw [if_neg (not_grow_failure s st hok)]
  unfold Step.stops at hstop
  cases hr : s.read with
  | bytes bs =>
    rw [hr] at hstop
    have hnil : bs = [] := List.isEmpty_iff.1 hstop
    subst hnil
    dsimp only
    rw [if_neg (fun h => h.1 rfl), if_pos rfl]
    have h0 : int32NonPositive (wrapU32 ([] : List Byte).length) = true := by decide
    rw [h0, if_pos rfl]
    exact ⟨_, _, rfl, ginv⟩
  | fail e =>
    rw [hr] at hstop
    dsimp only at hstop ⊢
    by_cases h1 : retryable e = false
    · rw [if_pos h1]
      exact ⟨_, _, rfl, ginv⟩
    · rw [if_neg h1]
      have h2 : s.poll ≠ 1 := by
        intro hp
        rw [hp] at hstop
        cases hre : retryable e
        · exact h1 hre
        · rw [hre] at hstop
          exact Bool.noConfusion hstop
      rw [if_pos h2]
      exact ⟨_, _, rfl, ginv⟩

/-- A retryable error followed by a successful readiness wait stores nothing
and the loop goes on. -/
theorem iteration_retry (fd : Int) (s : Step) (st : DrainState)
    (content : List Byte) (e : Int)
    (hinv : DrainInv st content) (hr : s.read = ReadOutcome.fail e)
    (hstop : s.stops = false) (hok : s.reallocOk = true) :
    ∃ st1 calls, iteration fd s st = Iter.again st1 calls ∧ DrainInv st1 content := by
  obtain ⟨ginv, _⟩ := grow_inv s st content hinv
  unfold Step.stops at hstop
  rw [hr] at hstop
  dsimp only at hstop
  have h1 : ¬ retryable e = false := by
    intro h
    rw [h] at hstop
    exact Bool.noConfusion hstop
  have h2 : ¬ s.poll ≠ 1 := by
    intro h
    have : (s.poll != 1) = true := by simpa using h
    rw [this, Bool.or_true] at hstop
    exact Bool.noConfusion hstop
  unfold iteration
  rw [if_neg (not_grow_failure s st hok), hr]
  dsimp only
  rw [if_neg h1, if_neg h2]
  exact ⟨_, _, rfl, ginv⟩

/-- A read that would take the length to `2^32` or beyond stores past the end
of the buffer, whose capacity is below `2^32`. -/
theorem iteration_overflow (fd : Int) (s : Step) (st : DrainState)
    (content bs : List Byte)
    (hinv : DrainInv st content) (hr : s.read = ReadOutcome.bytes bs)
    (hne : bs ≠ []) (hok : s.reallocOk = true)
    (hbig : 4294967296 ≤ content.length + bs.length) :
    iteration fd s st = Iter.fault NoReturn.heapOverflow := by
  obtain ⟨⟨_, g2, _, g4, _⟩, _⟩ := grow_inv s st content hinv
  have hroom : bs ≠ [] ∧ (grow s st).t_length + bs.length > (grow s st).t_capacity :=
    ⟨hne, by omega⟩
  unfold iteration
  rw [if_neg (not_grow_failure s st hok), hr]
  dsimp only
  rw [if_pos hroom]

/-! ## The drain loop as a whole -/

theorem withCalls_of_ok (calls more : List Call) (st : DrainState)
    (r : Except NoReturn (DrainState × List Call))
    (h : r = Except.ok (st, more)) :
    withCalls calls r = Except.ok (st, calls ++ more) := by
  rw [h]
  rfl

theorem withCalls_of_error (calls : List Call) (e : NoReturn)
    (r : Except NoReturn (DrainState × List Call))
    (h : r = Except.error e) :
    withCalls calls r = Except.error e := by
  rw [h]
  rfl

/-- While no allocation fails, every read is well formed and the bytes stored
plus the next request stay below `2^32`, the loop ends at the first stopping
iteration with the stored bytes followed by the observed bytes in the
buffer. -/
theorem drain_observed (fd : Int) (steps : List Step) :
    ∀ (st : DrainState) (content : List Byte),
      DrainInv st content →
      (∃ s ∈ steps, s.stops = true) →
      (∀ s ∈ steps, s.reallocOk = true) →
      (∀ s ∈ steps, s.wellFormed) →
      (∀ s ∈ steps,
        content.length + (observedBytes steps).length + (16384 + s.fionread)
          < 4294967296) →
      ∃ st1 calls, drain fd steps st = Except.ok (st1, calls) ∧
        DrainInv st1 (content ++ observedBytes steps) := by
  induction steps with
  | nil =>
    intro st content _ hstop
    obtain ⟨s, hs, _⟩ := hstop
    exact absurd hs (List.not_mem_nil s)
  | cons s rest ih =>
    intro st content hinv hstop halloc hwf hfit
    have hok : s.reallocOk = true := halloc s (List.mem_cons_self s rest)
    by_cases hs : s.stops = true
    · obtain ⟨st1, calls, hit, hinv1⟩ := iteration_stop fd s st content hinv hs hok
      refine ⟨st1, calls, drain_of_stop fd s rest st st1 calls hit, ?_⟩
      have hobs : observedBytes (s :: rest) = [] := by
        unfold observedBytes
        rw [if_pos hs]
      rw [hobs, List.append_nil]
      exact hinv1
    · have hs2 : s.stops = false := by
        cases h : s.stops
        · rfl
        · exact absurd h hs
      have hstop2 : ∃ s2 ∈ rest, s2.stops = true := by
        obtain ⟨s2, hmem, hs2stop⟩ := hstop
        rcases List.mem_cons.1 hmem with rfl | hmem
        · exact absurd hs2stop hs
        · exact ⟨s2, hmem, hs2stop⟩
      have halloc2 : ∀ s2 ∈ rest, s2.reallocOk = true :=
        fun s2 h => halloc s2 (List.mem_cons_of_mem s h)
      have hwf2 : ∀ s2 ∈ rest, s2.wellFormed :=
        fun s2 h => hwf s2 (List.mem_cons_of_mem s h)
      cases hr : s.read with
      | bytes bs =>
        have hdel : s.delivered = bs := by
          unfold Step.delivered
          rw [hr]
        have hobs : observedBytes (s :: rest) = bs ++ observedBytes rest := by
          rw [observedBytes, if_neg hs, hdel]
        have hne : bs ≠ [] := by
          intro hnil
          unfold Step.stops at hs2
          rw [hr, hnil] at hs2
          exact Bool.noConfusion hs2
        obtain ⟨hint, hcount⟩ := hwf s (List.mem_cons_self s rest)
        have hfits := hfit s (List.mem_cons_self s rest)
        obtain ⟨st1, hit, hinv1⟩ :=
          iteration_positive_read fd s st content bs hinv hr hne hok
            (by rw [← hdel]; exact hcount) hint (by omega)
        have hfit2 : ∀ s2 ∈ rest,
            (content ++ bs).length + (observedBytes rest).length
              + (16384 + s2.fionread) < 4294967296 := by
          intro s2 h
          have := hfit s2 (List.mem_cons_of_mem s h)
          rw [hobs, List.length_append] at this
          rw [List.length_append]
          omega
        obtain ⟨st2, calls2, hd2, hinv2⟩ :=
          ih st1 (content ++ bs) hinv1 hstop2 halloc2 hwf2 hfit2
        refine ⟨st2, readCalls fd s st ++ calls2, ?_, ?_⟩
        · rw [drain_of_again fd s rest st st1 _ hit]
          exact withCalls_of_ok _ _ _ _ hd2
        · rw [hobs, ← List.append_assoc]
          exact hinv2
      | fail e =>
        have hdel : s.delivered = [] := by
          unfold Step.delivered
          rw [hr]
        have hobs : observedBytes (s :: rest) = observedBytes rest := by
          rw [observedBytes, if_neg hs, hdel, List.nil_append]
        obtain ⟨st1, calls1, hit, hinv1⟩ :=
          iteration_retry fd s st content e hinv hr hs2 hok
        have hfit2 : ∀ s2 ∈ rest,
            content.length + (observedBytes rest).length
              + (16384 + s2.fionread) < 4294967296 := by
          intro s2 h
          have := hfit s2 (List.mem_cons_of_mem s h)
          rw [hobs] at this
          exact this
        obtain ⟨st2, calls2, hd2, hinv2⟩ :=
          ih st1 content hinv1 hstop2 halloc2 hwf2 hfit2
        refine ⟨st2, calls1 ++ calls2, ?_, ?_⟩
        · rw [drain_of_again fd s rest st st1 _ hit]
          exact withCalls_of_ok _ _ _ _ hd2
        · rw [hobs]
          exact hinv2

/-- A run of full reads that takes the stored length to exactly `2^32` ends in
a store past the end of the buffer. -/
theorem drain_full_reads_overflow (fd : Int) (rest : List Step) :
    ∀ (k : Nat) (st : DrainState) (content : List Byte),
      DrainInv st content →
      content.length + 65536 * (k + 1) = 4294967296 →
      drain fd (List.replicate (k + 1) fullStep ++ rest) st =
        Except.error NoReturn.heapOverflow := by
  have hne : List.replicate 65536 (0 : Byte) ≠ [] := by
    intro h
    have := congrArg List.length h
    rw [List.length_replicate] at this
    exact absurd this (by decide)
  have hread : fullStep.read = ReadOutcome.bytes (List.replicate 65536 0) := rfl
  have hok : fullStep.reallocOk = true := rfl
  have hfion : fullStep.fionread = 49152 := rfl
  intro k
  induction k with
  | zero =>
    intro st content hinv hlen
    rw [List.replicate_succ, List.cons_append]
    apply drain_of_fault
    apply iteration_overflow fd fullStep st content _ hinv hread hne hok
    rw [List.length_replicate]
    omega
  | succ k ih =>
    intro st content hinv hlen
    rw [List.replicate_succ, List.cons_append]
    obtain ⟨st1, hit, hinv1⟩ :=
      iteration_positive_read fd fullStep st content _ hinv hread hne hok
        (by rw [List.length_replicate, hfion])
        (by rw [hfion]; decide)
        (by rw [hfion]; omega)
    rw [drain_of_again fd fullStep _ st st1 _ hit]
    apply withCalls_of_error
    apply ih st1 _ hinv1
    rw [List.length_append, List.length_replicate]
    omega

/-- When both pipes exist and the process is the parent, a drain loop that
does not return keeps `Shell` from returning. -/
theorem Shell_of_drain_error (env : Env) (p_cmd : List Byte) (out : OutParams)
    (tp tc : Int × Int) (e : NoReturn)
    (hp : env.pipeToParent = some tp) (hc : env.pipeToChild = some tc)
    (hf : env.fork ≠ 0)
    (hd : drain tp.1 env.steps drainInit = Except.error e) :
    Shell env p_cmd out = Except.error e := by
  simp [Shell, hp, hc, hf, hd]

/-- On the success path `finish` hands over the first `t_length` bytes of the
buffer when the final `realloc` succeeds, and stores `t_length`. -/
theorem finish_out_of_success (env : Env) (tp : Int × Int) (t_pid : Int)
    (out : OutParams) (st : DrainState) (sofar : List Call)
    (hs : st.t_success = true) (hshrink : env.shrinkOk = true) :
    (finish env tp t_pid out st sofar).out.r_data =
        some ((st.t_data.getD []).take st.t_length) ∧
    (finish env tp t_pid out st sofar).out.r_data_length = st.t_length := by
  unfold finish
  rw [if_pos hs]
  dsimp only
  rw [if_pos hshrink]
  exact ⟨rfl, rfl⟩

/-- The only `break` that clears `t_success` is the one after a `realloc` that
returned null, and then `realloc` is the last call of the loop; every other way
through the loop body leaves `t_success` alone. -/
theorem iteration_success (fd : Int) (s : Step) (st : DrainState) :
    (∀ st1 calls, iteration fd s st = Iter.again st1 calls →
      st1.t_success = st.t_success) ∧
    (∀ st1 calls, iteration fd s st = Iter.stop st1 calls →
      st1.t_success = st.t_success ∨
      (s.reallocOk = false ∧
        calls = [Call.ioctlFionread fd, Call.realloc (needOf s st)])) := by
  have hg : (grow s st).t_success = st.t_success := by
    unfold grow
    by_cases h : needOf s st > st.t_capacity
    · rw [if_pos h]
    · rw [if_neg h]
  unfold iteration
  by_cases h0 : needOf s st > st.t_capacity ∧ s.reallocOk = false
  · rw [if_pos h0]
    refine ⟨fun st1 calls h => Iter.noConfusion h, fun st1 calls h => Or.inr ⟨h0.2, ?_⟩⟩
    injection h with _ h2
    exact h2.symm
  · rw [if_neg h0]
    cases hr : s.read with
    | bytes bs =>
      dsimp only
      by_cases h1 : bs ≠ [] ∧ (grow s st).t_length + bs.length > (grow s st).t_capacity
      · rw [if_pos h1]
        exact ⟨fun st1 calls h => Iter.noConfusion h, fun st1 calls h => Iter.noConfusion h⟩
      · rw [if_neg h1]
        have h2s : (if bs = [] then grow s st
            else { grow s st with
              t_data := some (store ((grow s st).t_data.getD []) (grow s st).t_length bs) }
            ).t_success = st.t_success := by
          by_cases hb : bs = []
          · rw [if_pos hb]
            exact hg
          · rw [if_neg hb]
            exact hg
        by_cases h2 : int32NonPositive (wrapU32 bs.length) = true
        · rw [if_pos h2]
          refine ⟨fun st1 calls h => Iter.noConfusion h, fun st1 calls h => Or.inl ?_⟩
          injection h with h3 _
          rw [← h3]
          exact h2s
        · rw [if_neg h2]
          refine ⟨fun st1 calls h => ?_, fun st1 calls h => Iter.noConfusion h⟩
          injection h with h3 _
          rw [← h3]
          exact h2s
    | fail e =>
      dsimp only
      by_cases h1 : retryable e = false
      · rw [if_pos h1]
        refine ⟨fun st1 calls h => Iter.noConfusion h, fun st1 calls h => Or.inl ?_⟩
        injection h with h3 _
        rw [← h3]
        exact hg
      · rw [if_neg h1]
        by_cases h2 : s.poll ≠ 1
        · rw [if_pos h2]
          refine ⟨fun st1 calls h => Iter.noConfusion h, fun st1 calls h => Or.inl ?_⟩
          injection h with h3 _
          rw [← h3]
          exact hg
        · rw [if_neg h2]
          refine ⟨fun st1 calls h => ?_, fun st1 calls h => Iter.noConfusion h⟩
          injection h with h3 _
          rw [← h3]
          exact hg

/-- A loop entered with `t_success` true ends with `t_success` false only by
the `break` after a failed `realloc`: the calls of the loop then end with the
`ioctl` and the `realloc` of an iteration whose allocation failed. -/
theorem drain_failure_calls (fd : Int) (steps : List Step) :
    ∀ (st st1 : DrainState) (calls : List Call),
      st.t_success = true →
      drain fd steps st = Except.ok (st1, calls) →
      st1.t_success = false →
      ∃ s ∈ steps, s.reallocOk = false ∧
        ∃ before n, calls = before ++ [Call.ioctlFionread fd, Call.realloc n] := by
  induction steps with
  | nil =>
    intro st st1 calls _ h
    rw [drain_nil] at h
    exact Except.noConfusion h
  | cons s rest ih =>
    intro st st1 calls hs h hfalse
    obtain ⟨hagain, hstop⟩ := iteration_success fd s st
    rw [drain_cons] at h
    cases hit : iteration fd s st with
    | stop st2 calls2 =>
      rw [hit] at h
      injection h with h
      injection h with h1 h2
      subst h1
      subst h2
      rcases hstop _ _ hit with hsame | ⟨hno, hcalls⟩
      · rw [hsame, hs] at hfalse
        exact Bool.noConfusion hfalse
      · exact ⟨s, List.mem_cons_self s rest, hno, [], _, hcalls⟩
    | again st2 calls2 =>
      rw [hit] at h
      obtain ⟨more, hmore, rfl⟩ := withCalls_ok h
      have hs2 : st2.t_success = true := by
        rw [hagain _ _ hit]
        exact hs
      obtain ⟨s2, hmem, hno, before, n, hcalls⟩ := ih st2 st1 more hs2 hmore hfalse
      refine ⟨s2, List.mem_cons_of_mem s hmem, hno, calls2 ++ before, n, ?_⟩
      rw [hcalls, List.append_assoc]
    | fault e =>
      rw [hit] at h
      exact Except.noConfusion h

/-! ## The iterations before a failing `realloc` -/

theorem withCalls_nil (r : Except NoReturn (DrainState × List Call)) :
    withCalls [] r = r := by
  cases r with
  | error e => rfl
  | ok v =>
    obtain ⟨st, more⟩ := v
    rfl

theorem withCalls_append (a b : List Call)
    (r : Except NoReturn (DrainState × List Call)) :
    withCalls a (withCalls b r) = withCalls (a ++ b) r := by
  cases r with
  | error e => rfl
  | ok v =>
    obtain ⟨st, more⟩ := v
    show Except.ok (st, a ++ (b ++ more)) = Except.ok (st, a ++ b ++ more)
    rw [List.append_assoc]

/-- When the iterations `pre` all go round the loop again, the loop over
`pre ++ rest` is the loop over `rest` from the state they reach, with their
calls in front. -/
theorem drain_of_stateAfter (fd : Int) (rest : List Step) :
    ∀ (pre : List Step) (st st0 : DrainState),
      stateAfter fd pre st = some st0 →
      drain fd (pre ++ rest) st =
        withCalls (callsAlong fd pre st) (drain fd rest st0) := by
  intro pre
  induction pre with
  | nil =>
    intro st st0 h
    injection h with h
    rw [← h]
    exact (withCalls_nil _).symm
  | cons s pre ih =>
    intro st st0 h
    unfold stateAfter at h
    cases hit : iteration fd s st with
    | stop st1 calls =>
      rw [hit] at h
      exact Option.noConfusion h
    | fault e =>
      rw [hit] at h
      exact Option.noConfusion h
    | again st1 calls =>
      rw [hit] at h
      have hc : callsAlong fd (s :: pre) st = calls ++ callsAlong fd pre st1 := by
        show (match iteration fd s st with
          | Iter.again st1 calls => calls ++ callsAlong fd pre st1
          | _ => []) = _
        rw [hit]
      rw [List.cons_append, drain_of_again fd s (pre ++ rest) st st1 calls hit,
        ih st1 st0 h, withCalls_append, hc]

/-- An iteration that reaches a `realloc` which returns null ends the loop with
`t_success` false, the buffer as it was, and `realloc` as its last call. -/
theorem iteration_of_failed_realloc (fd : Int) (s : Step) (st : DrainState)
    (hgrow : needOf s st > st.t_capacity) (hnull : s.reallocOk = false) :
    iteration fd s st =
      Iter.stop { st with t_capacity := needOf s st, t_success := false }
        [Call.ioctlFionread fd, Call.realloc (needOf s st)] := by
  unfold iteration
  rw [if_pos ⟨hgrow, hnull⟩]

theorem grow_bufferHeld (s : Step) (st : DrainState) (h : BufferHeld st) :
    BufferHeld (grow s st) ∧ (grow s st).t_length = st.t_length := by
  unfold grow
  by_cases hg : needOf s st > st.t_capacity
  · rw [if_pos hg]
    exact ⟨⟨fun _ => rfl, fun _ => rfl⟩, rfl⟩
  · rw [if_neg hg]
    exact ⟨h, rfl⟩

/-- An iteration that goes round the loop again leaves a block allocated
whenever the capacity or the length is not zero. -/
theorem iteration_bufferHeld (fd : Int) (s : Step) (st st1 : DrainState)
    (calls : List Call) (h : BufferHeld st)
    (hit : iteration fd s st = Iter.again st1 calls) : BufferHeld st1 := by
  obtain ⟨hg, _⟩ := grow_bufferHeld s st h
  unfold iteration at hit
  by_cases h0 : needOf s st > st.t_capacity ∧ s.reallocOk = false
  · rw [if_pos h0] at hit
    exact Iter.noConfusion hit
  · rw [if_neg h0] at hit
    cases hr : s.read with
    | bytes bs =>
      rw [hr] at hit
      dsimp only at hit
      by_cases h1 : bs ≠ [] ∧ (grow s st).t_length + bs.length > (grow s st).t_capacity
      · rw [if_pos h1] at hit
        exact Iter.noConfusion hit
      · rw [if_neg h1] at hit
        by_cases h2 : int32NonPositive (wrapU32 bs.length) = true
        · rw [if_pos h2] at hit
          exact Iter.noConfusion hit
        · rw [if_neg h2] at hit
          injection hit with hst _
          by_cases h3 : bs = []
          · subst h3
            exact absurd (by decide) h2
          · rw [if_neg h3] at hst
            rw [← hst]
            exact ⟨fun _ => rfl, fun _ => rfl⟩
    | fail e =>
      rw [hr] at hit
      dsimp only at hit
      by_cases h1 : retryable e = false
      · rw [if_pos h1] at hit
        exact Iter.noConfusion hit
      · rw [if_neg h1] at hit
        by_cases h2 : s.poll ≠ 1
        · rw [if_pos h2] at hit
          exact Iter.noConfusion hit
        · rw [if_neg h2] at hit
          injection hit with hst _
          rw [← hst]
          exact hg

theorem stateAfter_bufferHeld (fd : Int) :
    ∀ (pre : List Step) (st st0 : DrainState),
      BufferHeld st → stateAfter fd pre st = some st0 → BufferHeld st0 := by
  intro pre
  induction pre with
  | nil =>
    intro st st0 hb h
    injection h with h
    rw [← h]
    exact hb
  | cons s pre ih =>
    intro st st0 hb h
    unfold stateAfter at h
    cases hit : iteration fd s st with
    | stop st1 calls =>
      rw [hit] at h
      exact Option.noConfusion h
    | fault e =>
      rw [hit] at h
      exact Option.noConfusion h
    | again st1 calls =>
      rw [hit] at h
      exact ih st1 st0 (iteration_bufferHeld fd s st st1 calls hb hit) h

theorem drainInit_bufferHeld : BufferHeld drainInit :=
  ⟨fun h => absurd h (by decide), fun h => absurd h (by decide)⟩

/-- The calls of the iterations that go round the loop again are calls of the
loop. -/
theorem callsAlong_loop (fd : Int) :
    ∀ (pre : List Step) (st : DrainState),
      ∀ c ∈ callsAlong fd pre st, c.isLoopCall = true := by
  intro pre
  induction pre with
  | nil =>
    intro st c hc
    exact absurd hc (List.not_mem_nil c)
  | cons s pre ih =>
    intro st c hc
    have hc1 : c ∈ (match iteration fd s st with
        | Iter.again st1 calls => calls ++ callsAlong fd pre st1
        | _ => []) := hc
    cases hit : iteration fd s st with
    | stop st1 calls =>
      rw [hit] at hc1
      exact absurd hc1 (List.not_mem_nil c)
    | fault e =>
      rw [hit] at hc1
      exact absurd hc1 (List.not_mem_nil c)
    | again st1 calls =>
      rw [hit] at hc1
      have hc2 : c ∈ calls ++ callsAlong fd pre st1 := hc1
      rcases List.mem_append.1 hc2 with hc | hc
      · exact iteration_calls_loop fd s st st1 calls (Or.inr hit) c hc
      · exact ih st1 c hc
/-! ## The buffers handed to `write` -/

/-- C1, refuted as stated: a child writes 4 GiB in 65536 reads of 65536 bytes
and closes the pipe.  No allocation fails and every read is well formed, yet
`Shell` does not return the bytes: after 65535 reads `t_length` is
`2^32 - 65536`, the sum `t_length + t_available` wraps to 0, the buffer is not
grown, and the next `read` stores past its end. -/
theorem Shell_four_GiB_output_not_returned :
    (∀ s ∈ fourGiBEnv.steps, s.reallocOk = true ∧ s.wellFormed) ∧
    fourGiBEnv.shrinkOk = true ∧
    (∃ s ∈ fourGiBEnv.steps, s.stops = true) ∧
    Shell fourGiBEnv cmdTrue out0 = Except.error NoReturn.heapOverflow ∧
    ¬ ∃ res, Shell fourGiBEnv cmdTrue out0 = Except.ok res ∧ res.ret = true ∧
        res.out.r_data = some (observedBytes fourGiBEnv.steps) ∧
        res.out.r_data_length = (observedBytes fourGiBEnv.steps).length := by
  have hsteps : fourGiBEnv.steps = List.replicate (65535 + 1) fullStep ++ [eofStep] := rfl
  have hfull : fullStep.wellFormed := by
    refine ⟨by decide, ?_⟩
    show (List.replicate 65536 (0 : Byte)).length ≤ 16384 + 49152
    rw [List.length_replicate]
  have hdrain : drain (3, 4).1 fourGiBEnv.steps drainInit =
      Except.error NoReturn.heapOverflow := by
    rw [hsteps]
    exact drain_full_reads_overflow 3 [eofStep] 65535 drainInit [] drainInit_inv rfl
  have hshell : Shell fourGiBEnv cmdTrue out0 = Except.error NoReturn.heapOverflow :=
    Shell_of_drain_error fourGiBEnv cmdTrue out0 (3, 4) (5, 6) _ rfl rfl
      (by decide) hdrain
  refine ⟨?_, rfl, ?_, hshell, ?_⟩
  · intro s hs
    rw [hsteps] at hs
    rcases List.mem_append.1 hs with h | h
    · rw [List.eq_of_mem_replicate h]
      exact ⟨rfl, hfull⟩
    · rw [List.mem_singleton.1 h]
      exact ⟨rfl, by decide⟩
  · refine ⟨eofStep, ?_, rfl⟩
    rw [hsteps]
    exact List.mem_append_right _ (List.mem_singleton_self _)
  · rintro ⟨res, hres, _⟩
    rw [hshell] at hres
    exact Except.noConfusion hres

/-- C1, amended: when both pipes exist and the process is the parent, no
allocation fails, every read is well formed, some iteration stops the loop, and
the bytes delivered plus the request of any iteration (`FIONREAD` plus the
slack) stay below `2^32`, then `Shell` returns true, the returned buffer is
exactly the bytes of the positive reads, in order, up to the first stopping
iteration, and `r_data_length` is their number. -/
theorem Shell_returns_observed_bytes (env : Env) (p_cmd : List Byte)
    (out : OutParams) (tp tc : Int × Int)
    (hp : env.pipeToParent = some tp) (hc : env.pipeToChild = some tc)
    (hf : env.fork ≠ 0)
    (hstop : ∃ s ∈ env.steps, s.stops = true)
    (halloc : ∀ s ∈ env.steps, s.reallocOk = true)
    (hshrink : env.shrinkOk = true)
    (hwf : ∀ s ∈ env.steps, s.wellFormed)
    (hfit : ∀ s ∈ env.steps,
      (observedBytes env.steps).length + (16384 + s.fionread) < 4294967296) :
    ∃ res, Shell env p_cmd out = Except.ok res ∧ res.ret = true ∧
      res.out.r_data = some (observedBytes env.steps) ∧
      res.out.r_data_length = (observedBytes env.steps).length := by
  obtain ⟨st, calls, hd, h1, h2, _, _, h5⟩ :=
    drain_observed tp.1 env.steps drainInit [] drainInit_inv hstop halloc hwf
      (by
        intro s hs
        have := hfit s hs
        rw [List.length_nil, Nat.zero_add]
        exact this)
  rw [List.nil_append] at h1 h2
  obtain ⟨o1, o2⟩ :=
    finish_out_of_success env tp env.fork out st
      (parentSetup tp tc p_cmd ++ calls) h5 hshrink
  refine ⟨_, Shell_of_drain env p_cmd out tp tc st calls hp hc hf hd, ?_, ?_, ?_⟩
  · rw [finish_ret, h5]
  · rw [o1, h1, h2, List.take_length]
  · rw [o2, h2]

/-- The amended C1 at a run that reads 5 bytes, is told to wait, reads 3 more
bytes and then sees end of file. -/
theorem Shell_returns_observed_bytes_witness :
    ∃ res, Shell outputEnv cmdTrue out0 = Except.ok res ∧ res.ret = true ∧
      res.out.r_data = some [104, 101, 108, 108, 111, 33, 33, 10] ∧
      res.out.r_data_length = 8 :=
  Shell_returns_observed_bytes outputEnv cmdTrue out0 (3, 4) (5, 6) rfl rfl
    (by decide) (by decide) (by decide) rfl (by decide) (by decide)

/-! ## Claims about the exit code -/

/-- C2, at a run of `false`: the first, non-blocking wait reaps the child
(`waitNoHang` is the child's pid) and stores the status of `exit 1`, whose
`WEXITSTATUS` is 1; `Shell` succeeds with empty output and reports exit code 0,
because the `else` branch of the reap step overwrites the stored status. -/
theorem Shell_false_reports_exit_code_zero :
    falseEnv.waitNoHang = falseEnv.fork ∧
    WEXITSTATUS falseEnv.statNoHang = 1 ∧
    ∃ res, Shell falseEnv cmdFalse out0 = Except.ok res ∧
      res.ret = true ∧ res.out.r_data = some [] ∧ res.out.r_retcode = 0 :=
  ⟨rfl, rfl, _, rfl, rfl, rfl, rfl⟩

/-- C3, refuted as stated: the run whose child is killed by `Shell` with
`SIGKILL` and the run whose child exits normally with status 0 both succeed and
return the same exit code. -/
theorem Shell_killed_and_zero_exit_same_code :
    ∃ killed normal,
      Shell killedEnv cmdTrue out0 = Except.ok killed ∧
      Shell trueEnv cmdTrue out0 = Except.ok normal ∧
      Call.kill 100 SIGKILL ∈ killed.trace ∧
      ¬ killed.out.r_retcode ≠ normal.out.r_retcode :=
  ⟨_, _, rfl, rfl, by decide, by decide⟩

/-- C3, amended: when the child is still running at reap time (the non-blocking
wait returns 0) the parent sends `SIGKILL`, and when the blocking wait then
reports death by signal 9 the exit code `Shell` returns is 0, which is also
`WEXITSTATUS` of the status of a normal `exit 0`. -/
theorem Shell_sigkill_exit_code_zero (env : Env) (p_cmd : List Byte)
    (out : OutParams) (tp tc : Int × Int) (st : DrainState) (calls : List Call)
    (hp : env.pipeToParent = some tp) (hc : env.pipeToChild = some tc)
    (hf : env.fork ≠ 0)
    (hd : drain tp.1 env.steps drainInit = Except.ok (st, calls))
    (hs : st.t_success = true)
    (hrun : env.waitNoHang = 0)
    (hstat : env.statBlocking = signaledStatus SIGKILL) :
    ∃ res, Shell env p_cmd out = Except.ok res ∧ res.ret = true ∧
      Call.kill env.fork SIGKILL ∈ res.trace ∧
      res.out.r_retcode = 0 ∧
      res.out.r_retcode = WEXITSTATUS (exitedStatus 0) := by
  refine ⟨_, Shell_of_drain env p_cmd out tp tc st calls hp hc hf hd, ?_, ?_, ?_, ?_⟩
  · rw [finish_ret, hs]
  · rw [finish_trace]
    unfold finishCalls
    simp [hrun]
  · rw [finish_retcode _ _ _ _ _ _ hs, if_pos hrun, hstat]
    decide
  · rw [finish_retcode _ _ _ _ _ _ hs, if_pos hrun, hstat]
    decide

/-- The amended C3 at a concrete run. -/
theorem Shell_sigkill_exit_code_zero_witness :
    ∃ res, Shell killedEnv cmdTrue out0 = Except.ok res ∧ res.ret = true ∧
      Call.kill killedEnv.fork SIGKILL ∈ res.trace ∧
      res.out.r_retcode = 0 ∧
      res.out.r_retcode = WEXITSTATUS (exitedStatus 0) :=
  Shell_sigkill_exit_code_zero killedEnv cmdTrue out0 (3, 4) (5, 6)
    { t_data := some [], t_length := 0, t_capacity := 16384, t_success := true }
    [Call.ioctlFionread 3, Call.realloc 16384, Call.read 3 16384]
    rfl rfl (by decide) rfl rfl rfl rfl

/-! ## Claims about failures before the drain loop -/

/-- C4, at the failing run: the first `pipe` returns descriptors 3 and 4, the
second `pipe` fails.  `Shell` returns false, and the only `close` calls it has
made are on the two values found in the unfilled array `t_to_child`; neither
descriptor of the first pipe has been closed. -/
theorem Shell_second_pipe_failure_leaves_first_pipe_open :
    secondPipeFailsEnv.pipeToParent = some (3, 4) ∧
    secondPipeFailsEnv.pipeToChild = none ∧
    ∃ res, Shell secondPipeFailsEnv cmdTrue out0 = Except.ok res ∧
      res.ret = false ∧
      res.trace = [Call.pipe, Call.pipe, Call.close 0, Call.close 0] ∧
      res.trace.count (Call.close 3) = 0 ∧ res.trace.count (Call.close 4) = 0 :=
  ⟨rfl, rfl, _, rfl, rfl, rfl, by decide, by decide⟩

/-- C5, at the failing run: both pipes are created and `fork` returns -1 (no
child exists).  The code goes on as the parent, the first `read` sees end of
file, and `Shell` returns true with an empty output and exit code 0. -/
theorem Shell_fork_failure_returns_true :
    forkFailsEnv.fork = -1 ∧
    ∃ res, Shell forkFailsEnv cmdTrue out0 = Except.ok res ∧
      res.ret = true ∧ res.out.r_data = some [] ∧ res.out.r_retcode = 0 ∧
      Call.waitpid (-1) true ∈ res.trace :=
  ⟨rfl, _, rfl, rfl, rfl, rfl, by decide⟩

/-! ## Claims about the calls of the parent -/

/-- C6: when both pipes were created, their four descriptors are distinct and
`fork` returned the pid of a child, then, whatever state the drain loop ended
in (normally or on a failed `realloc`), `Shell` returns and its trace contains
exactly one `close` of each of the four descriptors. -/
theorem Shell_closes_each_pipe_end_once (env : Env) (p_cmd : List Byte)
    (out : OutParams) (tp tc : Int × Int) (st : DrainState) (calls : List Call)
    (hp : env.pipeToParent = some tp) (hc : env.pipeToChild = some tc)
    (hf : 0 < env.fork)
    (hd : drain tp.1 env.steps drainInit = Except.ok (st, calls))
    (h12 : tp.1 ≠ tp.2) (h13 : tp.1 ≠ tc.1) (h14 : tp.1 ≠ tc.2)
    (h23 : tp.2 ≠ tc.1) (h24 : tp.2 ≠ tc.2) (h34 : tc.1 ≠ tc.2) :
    ∃ res, Shell env p_cmd out = Except.ok res ∧
      res.trace.count (Call.close tp.1) = 1 ∧
      res.trace.count (Call.close tp.2) = 1 ∧
      res.trace.count (Call.close tc.1) = 1 ∧
      res.trace.count (Call.close tc.2) = 1 := by
  have hf0 : env.fork ≠ 0 := fun h => by rw [h] at hf; exact absurd hf (by decide)
  have hloop := drain_calls_loop tp.1 env.steps drainInit st calls hd
  refine ⟨_, Shell_of_drain env p_cmd out tp tc st calls hp hc hf0 hd, ?_, ?_, ?_, ?_⟩ <;>
    rw [finish_trace, List.count_append, List.count_append,
      count_close_of_loop calls _ hloop, count_close_finishCalls] <;>
    simp [parentSetup, List.count_cons, h12, h13, h14, h23, h24, h34,
      h12.symm, h13.symm, h14.symm, h23.symm, h24.symm, h34.symm]

/-- C6 at two concrete runs, one whose loop ends at end of file and one whose
loop ends on a failed `realloc`. -/
theorem Shell_closes_each_pipe_end_once_witness :
    (∃ res, Shell outputEnv cmdTrue out0 = Except.ok res ∧
      res.trace.count (Call.close 3) = 1 ∧ res.trace.count (Call.close 4) = 1 ∧
      res.trace.count (Call.close 5) = 1 ∧ res.trace.count (Call.close 6) = 1) ∧
    (∃ res, Shell growFailsEnv cmdTrue out0 = Except.ok res ∧
      res.trace.count (Call.close 3) = 1 ∧ res.trace.count (Call.close 4) = 1 ∧
      res.trace.count (Call.close 5) = 1 ∧ res.trace.count (Call.close 6) = 1) :=
  ⟨Shell_closes_each_pipe_end_once outputEnv cmdTrue out0 (3, 4) (5, 6)
      { t_data := some [104, 101, 108, 108, 111, 33, 33, 10], t_length := 8,
        t_capacity := 16392, t_success := true }
      [Call.ioctlFionread 3, Call.realloc 16389, Call.read 3 16389,
       Call.ioctlFionread 3, Call.read 3 16384, Call.poll 3,
       Call.ioctlFionread 3, Call.realloc 16392, Call.read 3 16387,
       Call.ioctlFionread 3, Call.read 3 16384]
      rfl rfl (by decide) rfl (by decide) (by decide) (by decide) (by decide)
      (by decide) (by decide),
   Shell_closes_each_pipe_end_once growFailsEnv cmdTrue out0 (3, 4) (5, 6)
      { t_data := some [104, 101, 108, 108, 111], t_length := 5,
        t_capacity := 16392, t_success := false }
      [Call.ioctlFionread 3, Call.realloc 16389, Call.read 3 16389,
       Call.ioctlFionread 3, Call.read 3 16384, Call.poll 3,
       Call.ioctlFionread 3, Call.realloc 16392]
      rfl rfl (by decide) rfl (by decide) (by decide) (by decide) (by decide)
      (by decide) (by decide)⟩

/-- C7: when, after the iterations `pre` have gone round the loop, an iteration
has to grow the buffer and its `realloc` returns null, `Shell` returns false
and leaves the reference parameters alone.  After the calls of the loop, which
end with that `realloc`, it closes the read end, does the non-blocking wait,
kills and waits for the child when that wait returned 0, and frees the buffer
when there is one; there is one whenever bytes had been read or a block had
been allocated. -/
theorem Shell_grow_failure_still_reaps (env : Env) (p_cmd : List Byte)
    (out : OutParams) (tp tc : Int × Int) (pre post : List Step) (s : Step)
    (st0 : DrainState)
    (hp : env.pipeToParent = some tp) (hc : env.pipeToChild = some tc)
    (hf : env.fork ≠ 0)
    (hsteps : env.steps = pre ++ s :: post)
    (hpre : stateAfter tp.1 pre drainInit = some st0)
    (hgrow : needOf s st0 > st0.t_capacity) (hnull : s.reallocOk = false) :
    ∃ res, Shell env p_cmd out = Except.ok res ∧ res.ret = false ∧ res.out = out ∧
      res.trace = parentSetup tp tc p_cmd ++ callsAlong tp.1 pre drainInit ++
        [Call.ioctlFionread tp.1, Call.realloc (needOf s st0)] ++
        [Call.close tp.1, Call.waitpid env.fork true] ++
        (if env.waitNoHang = 0
          then [Call.kill env.fork SIGKILL, Call.waitpid env.fork false] else []) ++
        (if st0.t_data.isSome then [Call.free] else []) ∧
      (0 < st0.t_length ∨ 0 < st0.t_capacity → st0.t_data.isSome = true) := by
  have hd : drain tp.1 env.steps drainInit =
      Except.ok ({ st0 with t_capacity := needOf s st0, t_success := false },
        callsAlong tp.1 pre drainInit ++
          [Call.ioctlFionread tp.1, Call.realloc (needOf s st0)]) := by
    rw [hsteps, drain_of_stateAfter tp.1 (s :: post) pre drainInit st0 hpre,
      drain_of_stop tp.1 s post st0 _ _
        (iteration_of_failed_realloc tp.1 s st0 hgrow hnull)]
    rfl
  have hheld := stateAfter_bufferHeld tp.1 pre drainInit st0 drainInit_bufferHeld hpre
  refine ⟨_, Shell_of_drain env p_cmd out tp tc _ _ hp hc hf hd, ?_, ?_, ?_, ?_⟩
  · rw [finish_ret]
  · exact finish_out_of_failure _ _ _ _ _ _ rfl
  · rw [finish_trace]
    unfold finishCalls
    simp
  · intro h
    rcases h with h | h
    · exact hheld.2 h
    · exact hheld.1 h

/-- C7 at a concrete run: after a read of five bytes and a retried read, the
third iteration cannot grow the buffer, and the child is still running; the
trace ends with the close, both waits around the kill, and the `free` of the
five bytes read so far. -/
theorem Shell_grow_failure_still_reaps_witness :
    ∃ res, Shell growFailsEnv cmdTrue out0 = Except.ok res ∧ res.ret = false ∧
      res.out = out0 ∧
      res.trace = parentSetup (3, 4) (5, 6) cmdTrue ++
        [Call.ioctlFionread 3, Call.realloc 16389, Call.read 3 16389,
         Call.ioctlFionread 3, Call.read 3 16384, Call.poll 3] ++
        [Call.ioctlFionread 3, Call.realloc 16392] ++
        [Call.close 3, Call.waitpid 100 true] ++
        [Call.kill 100 SIGKILL, Call.waitpid 100 false] ++
        [Call.free] :=
  (Shell_grow_failure_still_reaps growFailsEnv cmdTrue out0 (3, 4) (5, 6)
    [{ fionread := 5, reallocOk := true,
       read := ReadOutcome.bytes [104, 101, 108, 108, 111], poll := 0 },
     { fionread := 0, reallocOk := true, read := ReadOutcome.fail 35, poll := 1 }]
    [eofStep]
    { fionread := 3, reallocOk := false,
      read := ReadOutcome.bytes [33, 33, 10], poll := 0 }
    { t_data := some [104, 101, 108, 108, 111], t_length := 5,
      t_capacity := 16389, t_success := true }
    rfl rfl (by decide) rfl rfl (by decide) rfl).imp
    (fun _ h => ⟨h.1, h.2.1, h.2.2.1, h.2.2.2.1⟩)

/-- C9: a path that begins neither with `'~'` nor with `'/'` resolves to the
current working directory, one `'/'`, and the path unchanged. -/
theorem ResolveNativePath_relative (env : PathEnv) (p_path cwd : List Char)
    (hcwd : env.getcwd = some cwd)
    (htilde : p_path.head? ≠ some '~') (hroot : p_path.head? ≠ some '/') :
    ResolveNativePath env p_path = some (cwd ++ '/' :: p_path) := by
  have ht : tildePath env p_path = p_path := by
    unfold tildePath
    rw [if_neg htilde]
  unfold ResolveNativePath
  rw [ht, if_pos hroot, hcwd]

/-- C9 at `relative/path` with current directory `/home/u`. -/
theorem ResolveNativePath_relative_witness :
    ResolveNativePath homeEnv "relative/path".toList =
      some "/home/u/relative/path".toList :=
  ResolveNativePath_relative homeEnv "relative/path".toList "/home/u".toList
    rfl (by decide) (by decide)

/-- C10, refuted as stated: with no account named `nonexistentuser`, the path
`~nonexistentuser/x` does not come back unmodified; the current directory and a
`'/'` are put in front of it. -/
theorem ResolveNativePath_unknown_user_not_literal :
    homeEnv.getpwnam "nonexistentuser".toList = none ∧
    ResolveNativePath homeEnv "~nonexistentuser/x".toList =
      some "/home/u/~nonexistentuser/x".toList ∧
    ResolveNativePath homeEnv "~nonexistentuser/x".toList ≠
      some "~nonexistentuser/x".toList :=
  ⟨rfl, by decide, by decide⟩

/-- C10, amended: for a path that begins with `'~'` and whose account lookup
finds no entry, the result is the current working directory, one `'/'`, and the
input path unmodified. -/
theorem ResolveNativePath_unknown_user (env : PathEnv) (p_path cwd : List Char)
    (hcwd : env.getcwd = some cwd)
    (htilde : p_path.head? = some '~')
    (hlookup : lookupPassword env p_path = none) :
    ResolveNativePath env p_path = some (cwd ++ '/' :: p_path) := by
  have ht : tildePath env p_path = p_path := by
    unfold tildePath
    rw [if_pos htilde, hlookup]
  have hroot : p_path.head? ≠ some '/' := by
    rw [htilde]
    decide
  unfold ResolveNativePath
  rw [ht, if_pos hroot, hcwd]

/-- The amended C10 at `~nonexistentuser/x` with current directory `/home/u`. -/
theorem ResolveNativePath_unknown_user_witness :
    ResolveNativePath homeEnv "~nonexistentuser/x".toList =
      some "/home/u/~nonexistentuser/x".toList :=
  ResolveNativePath_unknown_user homeEnv "~nonexistentuser/x".toList
    "/home/u".toList rfl (by decide) (by decide)

/-! ## More about `ResolveNativePath` -/

theorem head_append_of_head (xs ys : List Char) (c : Char)
    (h : xs.head? = some c) : (xs ++ ys).head? = some c := by
  cases xs with
  | nil => exact Option.noConfusion h
  | cons x rest => exact h

/-- A path that begins with `'/'` comes back unchanged. -/
theorem ResolveNativePath_of_root (env : PathEnv) (p_path : List Char)
    (hroot : p_path.head? = some '/') :
    ResolveNativePath env p_path = some p_path := by
  have htilde : ¬ p_path.head? = some '~' := by
    rw [hroot]
    decide
  have ht : tildePath env p_path = p_path := by
    unfold tildePath
    rw [if_neg htilde]
  unfold ResolveNativePath
  rw [ht, if_neg (fun h => h hroot)]

/-- With a current directory that begins with `'/'` the result begins with
`'/'`. -/
theorem ResolveNativePath_head (env : PathEnv) (p_path cwd : List Char)
    (hcwd : env.getcwd = some cwd) (habs : cwd.head? = some '/') :
    ∃ r, ResolveNativePath env p_path = some r ∧ r.head? = some '/' := by
  unfold ResolveNativePath
  by_cases h : (tildePath env p_path).head? = some '/'
  · rw [if_neg (fun hn => hn h)]
    exact ⟨_, rfl, h⟩
  · rw [if_pos h, hcwd]
    exact ⟨_, rfl, head_append_of_head _ _ _ habs⟩

/-- For the paths `~` and `~/rest` the offset of the end of the user name is 1,
so the entry of the calling user is looked up. -/
theorem lookupPassword_self (env : PathEnv) :
    lookupPassword env ['~'] = env.getpwuid ∧
    ∀ rest, lookupPassword env ('~' :: '/' :: rest) = env.getpwuid := by
  refine ⟨?_, fun rest => ?_⟩
  · have h : userEnd ['~'] = 1 := by decide
    unfold lookupPassword
    rw [if_pos h]
  · have h : userEnd ('~' :: '/' :: rest) = 1 := by
      simp [userEnd, strchr]
    unfold lookupPassword
    rw [if_pos h]

/-- C11: when the account database has an entry for the calling user whose home
directory `h` begins with `'/'`, the path `~` resolves to exactly `h`, and
`~/rest` resolves to `h` followed by `/rest`, for every `rest`. -/
theorem ResolveNativePath_own_home (env : PathEnv) (h : List Char)
    (hpw : env.getpwuid = some { pw_dir := h }) (habs : h.head? = some '/') :
    ResolveNativePath env ['~'] = some h ∧
    ∀ rest, ResolveNativePath env ('~' :: '/' :: rest) = some (h ++ '/' :: rest) := by
  obtain ⟨l1, l2⟩ := lookupPassword_self env
  refine ⟨?_, fun rest => ?_⟩
  · have ht : tildePath env ['~'] = h := by
      unfold tildePath
      rw [if_pos (show ['~'].head? = some '~' from rfl), l1, hpw]
      have hu : userEnd ['~'] = 1 := by decide
      simp [hu]
    unfold ResolveNativePath
    rw [ht, if_neg (fun hn => hn habs)]
  · have ht : tildePath env ('~' :: '/' :: rest) = h ++ '/' :: rest := by
      unfold tildePath
      rw [if_pos (show ('~' :: '/' :: rest).head? = some '~' from rfl), l2 rest, hpw]
      have hu : userEnd ('~' :: '/' :: rest) = 1 := by
        simp [userEnd, strchr]
      simp [hu]
    unfold ResolveNativePath
    rw [ht, if_neg (fun hn => hn (head_append_of_head _ _ _ habs))]

/-- C11 for the calling user of `aliceEnv`, whose home is `/Users/me`. -/
theorem ResolveNativePath_own_home_witness :
    ResolveNativePath aliceEnv "~".toList = some "/Users/me".toList ∧
    ResolveNativePath aliceEnv "~/Documents/a.txt".toList =
      some "/Users/me/Documents/a.txt".toList :=
  ⟨(ResolveNativePath_own_home aliceEnv "/Users/me".toList rfl (by decide)).1,
   (ResolveNativePath_own_home aliceEnv "/Users/me".toList rfl (by decide)).2
     "Documents/a.txt".toList⟩

/-- The first `'/'` of `name ++ "/" ++ rest`, for a name without `'/'`, is at
offset `name.length`. -/
theorem strchr_append_slash (name rest : List Char) (hname : '/' ∉ name) :
    strchr (name ++ '/' :: rest) '/' = some name.length := by
  induction name with
  | nil =>
    show (if '/' = '/' then some 0 else _) = some 0
    rw [if_pos rfl]
  | cons c cs ih =>
    have hc : c ≠ '/' := fun h => hname (by rw [h]; exact List.mem_cons_self _ _)
    have hcs : '/' ∉ cs := fun h => hname (List.mem_cons_of_mem _ h)
    show (if c = '/' then some 0
      else (strchr (cs ++ '/' :: rest) '/').map (fun i => i + 1)) = _
    rw [if_neg hc, ih hcs]
    rfl

/-- For a path `~name/rest` with a non-empty name, the string handed to
`getpwnam` is `~name` followed by whatever lies after the unterminated copy:
the tilde is part of the key. -/
theorem lookupPassword_named (env : PathEnv) (name rest : List Char)
    (hne : name ≠ []) (hname : '/' ∉ name) (h32 : name.length + 1 < 4294967296) :
    lookupPassword env ('~' :: name ++ '/' :: rest) =
      env.getpwnam ('~' :: name ++ env.heapAfter) := by
  have htilde : ('~' : Char) ≠ '/' := by decide
  have hmem : '/' ∉ '~' :: name := by
    intro h
    rcases List.mem_cons.1 h with h | h
    · exact htilde h.symm
    · exact hname h
  have hu : userEnd ('~' :: name ++ '/' :: rest) = name.length + 1 := by
    unfold userEnd
    rw [show '~' :: name ++ '/' :: rest = ('~' :: name) ++ '/' :: rest from rfl,
      strchr_append_slash _ rest hmem]
    rfl
  have hpos : 0 < name.length := List.length_pos.2 hne
  unfold lookupPassword
  rw [hu, if_neg (by omega)]
  have hw : wrapU32 (name.length + 1) = name.length + 1 := by
    unfold wrapU32
    omega
  have hlen : ¬ ('~' :: name ++ '/' :: rest).length < name.length + 1 := by
    simp only [List.length_cons, List.length_append]
    omega
  have htake : ('~' :: name ++ '/' :: rest).take (name.length + 1) = '~' :: name := by
    rw [show '~' :: name ++ '/' :: rest = ('~' :: name) ++ '/' :: rest from rfl]
    exact List.take_left' rfl
  unfold strndup
  rw [hw, if_neg hlen, htake]

/-- C12, at the failing input: the account database maps the account name
`alice` to `/Users/alice`, yet `~alice/x` does not resolve to `/Users/alice/x`.
The name handed to `getpwnam` is the copy `strndup` makes from the start of
the path, tilde included (`~alice`, even when the unterminated copy happens to
be followed by a zero byte); that lookup fails and the input is treated as a
relative path. -/
theorem ResolveNativePath_named_user_lookup_key_has_tilde :
    aliceEnv.getpwnam "alice".toList = some { pw_dir := "/Users/alice".toList } ∧
    strndup aliceEnv.heapAfter "~alice/x".toList
        (wrapU32 (userEnd "~alice/x".toList)) = "~alice".toList ∧
    lookupPassword aliceEnv "~alice/x".toList = none ∧
    ResolveNativePath aliceEnv "~alice/x".toList = some "/home/u/~alice/x".toList ∧
    ResolveNativePath aliceEnv "~alice/x".toList ≠ some "/Users/alice/x".toList :=
  ⟨by decide, by decide, by decide, by decide, by decide⟩

/-- C13: for every input path, if the current working directory begins with
`'/'`, `ResolveNativePath` returns a string that begins with `'/'`. -/
theorem ResolveNativePath_is_absolute (env : PathEnv) (p_path cwd : List Char)
    (hcwd : env.getcwd = some cwd) (habs : cwd.head? = some '/') :
    ∃ r, ResolveNativePath env p_path = some r ∧ r.head? = some '/' :=
  ResolveNativePath_head env p_path cwd hcwd habs

/-- C13 at the empty path, a relative path, an unknown `~name` and the calling
user's `~`, with current directory `/home/u`. -/
theorem ResolveNativePath_is_absolute_witness :
    (∃ r, ResolveNativePath aliceEnv [] = some r ∧ r.head? = some '/') ∧
    (∃ r, ResolveNativePath aliceEnv "a/../b".toList = some r ∧ r.head? = some '/') ∧
    (∃ r, ResolveNativePath aliceEnv "~bob/x".toList = some r ∧ r.head? = some '/') ∧
    (∃ r, ResolveNativePath aliceEnv "~".toList = some r ∧ r.head? = some '/') :=
  ⟨ResolveNativePath_is_absolute aliceEnv [] "/home/u".toList rfl (by decide),
   ResolveNativePath_is_absolute aliceEnv "a/../b".toList "/home/u".toList rfl (by decide),
   ResolveNativePath_is_absolute aliceEnv "~bob/x".toList "/home/u".toList rfl (by decide),
   ResolveNativePath_is_absolute aliceEnv "~".toList "/home/u".toList rfl (by decide)⟩

/-- C19: with a current working directory that begins with `'/'`, resolving the
result of a resolution gives the same result again; and every path that begins
with `'/'` is returned unchanged, whatever its `.` and `..` segments. -/
theorem ResolveNativePath_idempotent (env : PathEnv) (p_path cwd : List Char)
    (hcwd : env.getcwd = some cwd) (habs : cwd.head? = some '/') :
    (∃ r, ResolveNativePath env p_path = some r ∧ ResolveNativePath env r = some r) ∧
    ∀ q : List Char, q.head? = some '/' → ResolveNativePath env q = some q := by
  obtain ⟨r, hr, hhead⟩ := ResolveNativePath_head env p_path cwd hcwd habs
  exact ⟨⟨r, hr, ResolveNativePath_of_root env r hhead⟩,
    fun q hq => ResolveNativePath_of_root env q hq⟩

/-- C19 at a relative path with `..` and at an absolute path with `.` and
`..`, with current directory `/home/u`. -/
theorem ResolveNativePath_idempotent_witness :
    (∃ r, ResolveNativePath aliceEnv "a/../b".toList = some r ∧
      ResolveNativePath aliceEnv r = some r) ∧
    ResolveNativePath aliceEnv "/x/./y/../z".toList = some "/x/./y/../z".toList :=
  ⟨(ResolveNativePath_idempotent aliceEnv "a/../b".toList "/home/u".toList rfl
      (by decide)).1,
   (ResolveNativePath_idempotent aliceEnv "a/../b".toList "/home/u".toList rfl
      (by decide)).2 "/x/./y/../z".toList (by decide)⟩

/-! ## Claims about file handles -/

/-- C16: for every buffer and every requested length (a `uint32_t`), when the
stream accepts at most what was requested, `Write` returns false exactly when
the stream accepted fewer bytes than requested, and in both cases `r_written`
is the number of bytes accepted. -/
theorem Write_fails_iff_short (fwrite : List Byte → Nat → Nat)
    (p_buffer : List Byte) (p_length : Nat)
    (h32 : p_length < 4294967296)
    (hmost : fwrite p_buffer p_length ≤ p_length) :
    ((MCStdioFileHandle.Write fwrite p_buffer p_length).1 = false ↔
      fwrite p_buffer p_length < p_length) ∧
    (MCStdioFileHandle.Write fwrite p_buffer p_length).2 = fwrite p_buffer p_length := by
  have hw : wrapU32 (fwrite p_buffer p_length) = fwrite p_buffer p_length := by
    unfold wrapU32
    omega
  unfold MCStdioFileHandle.Write
  dsimp only
  by_cases h : fwrite p_buffer p_length < p_length
  · rw [if_pos h]
    exact ⟨⟨fun _ => h, fun _ => rfl⟩, hw⟩
  · rw [if_neg h]
    exact ⟨⟨fun hf => Bool.noConfusion hf, fun hlt => absurd hlt h⟩, hw⟩

/-- C16 on a stream that accepts 3 bytes: a request of 5 bytes fails with
`r_written` 3, a request of 2 bytes succeeds with `r_written` 2. -/
theorem Write_fails_iff_short_witness :
    MCStdioFileHandle.Write fwriteThree [1, 2, 3, 4, 5] 5 = (false, 3) ∧
    MCStdioFileHandle.Write fwriteThree [1, 2, 3, 4, 5] 2 = (true, 2) ∧
    ((MCStdioFileHandle.Write fwriteThree [1, 2, 3, 4, 5] 5).1 = false ↔
      fwriteThree [1, 2, 3, 4, 5] 5 < 5) :=
  ⟨rfl, rfl,
   (Write_fails_iff_short fwriteThree [1, 2, 3, 4, 5] 5 (by decide) (by decide)).1⟩

/-! ## Claims about `MCS_get_temporary_folder` -/

theorem getElem?_last_eq_getLast? (v : List Char) :
    v[v.length - 1]? = v.getLast? := by
  rw [List.getLast?_eq_getElem?]

/-- C20: with a string copy whose allocation succeeds, `MCS_get_temporary_folder`
succeeds with `/tmp` when `TMPDIR` is unset, fails (leaving `r_temp_folder`
alone) when `TMPDIR` is the empty string, and otherwise, for a value shorter
than `2^31` characters, succeeds with the value without its last character when
that character is `'/'` and with the value unchanged when it is not. -/
theorem MCS_get_temporary_folder_result (env : TempEnv)
    (r_temp_folder : Option (List Char)) (hok : env.cloneOk = true) :
    (env.tmpdir = none →
      MCS_get_temporary_folder env r_temp_folder = (true, some "/tmp".toList)) ∧
    (env.tmpdir = some [] →
      MCS_get_temporary_folder env r_temp_folder = (false, r_temp_folder)) ∧
    (∀ value, env.tmpdir = some value → value ≠ [] → value.length < 2147483648 →
      MCS_get_temporary_folder env r_temp_folder =
        (true, some (if value.getLast? = some '/' then value.dropLast else value))) := by
  refine ⟨fun h => ?_, fun h => ?_, fun value h hne hlen => ?_⟩
  · unfold MCS_get_temporary_folder
    rw [h]
    dsimp only
    have h1 : int32NonPositive (MCCStringLength "/tmp".toList) = false := by decide
    have h2 : ¬ ("/tmp".toList)[MCCStringLength "/tmp".toList - 1]? = some '/' := by
      decide
    rw [h1, if_neg Bool.false_ne_true, if_neg h2]
    unfold MCCStringClone
    rw [hok, if_pos rfl]
  · unfold MCS_get_temporary_folder
    rw [h]
    dsimp only
    have h1 : int32NonPositive (MCCStringLength []) = true := by decide
    rw [h1, if_pos rfl]
  · have hpos : 0 < value.length := List.length_pos.2 hne
    have hlenw : MCCStringLength value = value.length := by
      unfold MCCStringLength wrapU32
      omega
    have h1 : int32NonPositive (MCCStringLength value) = false :=
      int32NonPositive_of_pos value.length hpos hlen
    unfold MCS_get_temporary_folder
    rw [h]
    dsimp only
    rw [h1, if_neg Bool.false_ne_true, hlenw, getElem?_last_eq_getLast?]
    by_cases hl : value.getLast? = some '/'
    · rw [if_pos hl, if_pos hl]
      unfold MCCStringCloneSubstring
      rw [hok, if_pos rfl, List.dropLast_eq_take]
    · rw [if_neg hl, if_neg hl]
      unfold MCCStringClone
      rw [hok, if_pos rfl]

/-- C20 at the unset variable, the empty value, `/`, a value that ends in `//`
and a value that does not end in `'/'`. -/
theorem MCS_get_temporary_folder_result_witness :
    MCS_get_temporary_folder { tmpdir := none, cloneOk := true } none =
      (true, some "/tmp".toList) ∧
    MCS_get_temporary_folder { tmpdir := some [], cloneOk := true } none =
      (false, none) ∧
    MCS_get_temporary_folder { tmpdir := some "/".toList, cloneOk := true } none =
      (true, some []) ∧
    MCS_get_temporary_folder { tmpdir := some "/var/tmp//".toList, cloneOk := true }
      none = (true, some "/var/tmp/".toList) ∧
    MCS_get_temporary_folder { tmpdir := some "/var/tmp".toList, cloneOk := true }
      none = (true, some "/var/tmp".toList) :=
  ⟨(MCS_get_temporary_folder_result { tmpdir := none, cloneOk := true } none rfl).1 rfl,
   (MCS_get_temporary_folder_result { tmpdir := some [], cloneOk := true } none
      rfl).2.1 rfl,
   (MCS_get_temporary_folder_result { tmpdir := some "/".toList, cloneOk := true }
      none rfl).2.2 "/".toList rfl (by decide) (by decide),
   (MCS_get_temporary_folder_result
      { tmpdir := some "/var/tmp//".toList, cloneOk := true } none rfl).2.2
      "/var/tmp//".toList rfl (by decide) (by decide),
   (MCS_get_temporary_folder_result
      { tmpdir := some "/var/tmp".toList, cloneOk := true } none rfl).2.2
      "/var/tmp".toList rfl (by decide) (by decide)⟩

/-! ## Claims about the failure paths and the buffer of `Shell` -/

theorem Shell_of_no_first_pipe (env : Env) (p_cmd : List Byte) (out : OutParams)
    (hp : env.pipeToParent = none) :
    Shell env p_cmd out =
      Except.ok { ret := false, out := out, trace := [Call.pipe] } := by
  simp [Shell, hp]

theorem Shell_of_no_second_pipe (env : Env) (p_cmd : List Byte) (out : OutParams)
    (tp : Int × Int)
    (hp : env.pipeToParent = some tp) (hc : env.pipeToChild = none) :
    Shell env p_cmd out =
      Except.ok { ret := false, out := out,
                  trace := [Call.pipe, Call.pipe, Call.close env.stackToChild.1,
                            Call.close env.stackToChild.2] } := by
  simp [Shell, hp, hc]

theorem Shell_of_child (env : Env) (p_cmd : List Byte) (out : OutParams)
    (tp tc : Int × Int)
    (hp : env.pipeToParent = some tp) (hc : env.pipeToChild = some tc)
    (hf : env.fork = 0) :
    Shell env p_cmd out = Except.error NoReturn.childSide := by
  simp [Shell, hp, hc, hf]

/-- C17, refuted as stated: a caller whose variables still hold 3 bytes of an
earlier output calls `Shell`, and the second `pipe` fails, or the buffer cannot
grow in the middle of the drain loop.  `Shell` returns false and the caller
still observes the length 3 and the old buffer. -/
theorem Shell_failure_output_not_empty :
    (∃ res, Shell secondPipeFailsEnv cmdTrue outStale = Except.ok res ∧
      res.ret = false ∧ res.out.r_data_length = 3 ∧ res.out.r_data_length ≠ 0 ∧
      res.out.r_data = some [1, 2, 3]) ∧
    (∃ res, Shell growFailsEnv cmdTrue outStale = Except.ok res ∧
      res.ret = false ∧ res.out.r_data_length = 3 ∧ res.out.r_data_length ≠ 0 ∧
      res.out.r_data = some [1, 2, 3]) :=
  ⟨⟨_, rfl, rfl, rfl, by decide, rfl⟩, ⟨_, rfl, rfl, rfl, by decide, rfl⟩⟩

/-- C17, amended: on every failing return of `Shell` the three reference
parameters are exactly as the caller passed them: `Shell` stores no length and
hands over no buffer, so the caller observes an empty output exactly when its
variables were empty before the call. -/
theorem Shell_failure_leaves_reference_parameters (env : Env)
    (p_cmd : List Byte) (out : OutParams) (res : ShellResult)
    (hres : Shell env p_cmd out = Except.ok res) (hret : res.ret = false) :
    res.out = out := by
  cases hp : env.pipeToParent with
  | none =>
    rw [Shell_of_no_first_pipe env p_cmd out hp] at hres
    injection hres with hres
    rw [← hres]
  | some tp =>
    cases hc : env.pipeToChild with
    | none =>
      rw [Shell_of_no_second_pipe env p_cmd out tp hp hc] at hres
      injection hres with hres
      rw [← hres]
    | some tc =>
      by_cases hf : env.fork = 0
      · rw [Shell_of_child env p_cmd out tp tc hp hc hf] at hres
        exact Except.noConfusion hres
      · cases hd : drain tp.1 env.steps drainInit with
        | error e =>
          rw [Shell_of_drain_error env p_cmd out tp tc e hp hc hf hd] at hres
          exact Except.noConfusion hres
        | ok v =>
          obtain ⟨st, calls⟩ := v
          rw [Shell_of_drain env p_cmd out tp tc st calls hp hc hf hd] at hres
          injection hres with hres
          rw [← hres] at hret ⊢
          rw [finish_ret] at hret
          exact finish_out_of_failure _ _ _ _ _ _ hret

/-- The amended C17 at a failed second `pipe` and at a failed `realloc` in the
drain loop, for a caller whose variables were not empty. -/
theorem Shell_failure_leaves_reference_parameters_witness :
    (∃ res, Shell secondPipeFailsEnv cmdTrue outStale = Except.ok res ∧
      res.out = outStale) ∧
    (∃ res, Shell growFailsEnv cmdTrue outStale = Except.ok res ∧
      res.out = outStale) :=
  ⟨⟨_, rfl, Shell_failure_leaves_reference_parameters secondPipeFailsEnv cmdTrue
      outStale _ rfl rfl⟩,
   ⟨_, rfl, Shell_failure_leaves_reference_parameters growFailsEnv cmdTrue
      outStale _ rfl rfl⟩⟩

/-- A read of 65536 bytes, with 49152 bytes announced, from a state whose
length and capacity are both `L`, with `L + 65536` below `2^32`, grows the
buffer to `L + 65536` and fills it. -/
theorem iteration_full_read_exact (fd : Int) (s : Step) (st : DrainState)
    (L : Nat) (bs : List Byte)
    (hfion : s.fionread = 49152) (hok : s.reallocOk = true)
    (hread : s.read = ReadOutcome.bytes bs) (hbs : bs.length = 65536)
    (hlen : st.t_length = L) (hcap : st.t_capacity = L)
    (hs : st.t_success = true) (hfit : L + 65536 < 4294967296) :
    ∃ st1 calls, iteration fd s st = Iter.again st1 calls ∧
      st1.t_length = L + 65536 ∧ st1.t_capacity = L + 65536 ∧
      st1.t_success = true := by
  have hne : bs ≠ [] := by
    intro h
    rw [h] at hbs
    exact absurd hbs (by decide)
  have hneed : needOf s st = L + 65536 := by
    rw [needOf_eq s st (by rw [hlen, hfion]; omega), hlen, hfion]
  have hgrow : needOf s st > st.t_capacity := by
    rw [hneed, hcap]
    omega
  have hg : grow s st =
      { st with t_capacity := needOf s st,
                t_data := some (st.t_data.getD []) } := by
    unfold grow
    rw [if_pos hgrow]
  have hgl : (grow s st).t_length = L := by
    rw [hg]
    exact hlen
  have hgc : (grow s st).t_capacity = L + 65536 := by
    rw [hg]
    exact hneed
  have hgs : (grow s st).t_success = true := by
    rw [hg]
    exact hs
  have hroom : ¬ (bs ≠ [] ∧
      (grow s st).t_length + bs.length > (grow s st).t_capacity) := by
    rintro ⟨_, h⟩
    rw [hgl, hgc, hbs] at h
    omega
  unfold iteration
  rw [if_neg (not_grow_failure s st hok), hread]
  dsimp only
  rw [if_neg hroom, if_neg hne,
    int32NonPositive_of_pos _ (List.length_pos.2 hne) (by rw [hbs]; omega)]
  refine ⟨_, _, rfl, ?_, ?_, ?_⟩
  · show wrapU32 ((grow s st).t_length + wrapU32 bs.length) = L + 65536
    rw [hgl, hbs]
    unfold wrapU32
    omega
  · exact hgc
  · exact hgs

/-- After `k` reads of 65536 bytes from a state whose length and capacity are
both `L`, length and capacity are both `L + 65536 * k`, as long as that is
below `2^32`. -/
theorem stateAfter_full_reads (fd : Int) (s : Step) (bs : List Byte)
    (hfion : s.fionread = 49152) (hok : s.reallocOk = true)
    (hread : s.read = ReadOutcome.bytes bs) (hbs : bs.length = 65536) :
    ∀ (k : Nat) (st : DrainState) (L : Nat),
      st.t_length = L → st.t_capacity = L → st.t_success = true →
      L + 65536 * k < 4294967296 →
      ∃ st1, stateAfter fd (List.replicate k s) st = some st1 ∧
        st1.t_length = L + 65536 * k ∧ st1.t_capacity = L + 65536 * k ∧
        st1.t_success = true := by
  intro k
  induction k with
  | zero =>
    intro st L hlen hcap hs _
    exact ⟨st, rfl, by rw [hlen]; rfl, by rw [hcap]; rfl, hs⟩
  | succ k ih =>
    intro st L hlen hcap hs hfit
    obtain ⟨st1, calls, hit, h1, h2, h3⟩ :=
      iteration_full_read_exact fd s st L bs hfion hok hread hbs hlen hcap hs
        (by omega)
    obtain ⟨st2, hafter, g1, g2, g3⟩ := ih st1 (L + 65536) h1 h2 h3 (by omega)
    refine ⟨st2, ?_, by rw [g1]; omega, by rw [g2]; omega, g3⟩
    rw [List.replicate_succ]
    unfold stateAfter
    rw [hit]
    exact hafter

/-- A read of 65536 bytes from a state whose length and capacity are both
`2^32 - 65536`: the unsigned sum of length and available bytes is 0, the buffer
is not grown, and the bytes are stored past its end. -/
theorem iteration_full_read_wraps (fd : Int) (s : Step) (st : DrainState)
    (bs : List Byte)
    (hfion : s.fionread = 49152) (hok : s.reallocOk = true)
    (hread : s.read = ReadOutcome.bytes bs) (hbs : bs.length = 65536)
    (hlen : st.t_length = 4294901760) (hcap : st.t_capacity = 4294901760) :
    availableOf s = 65536 ∧ needOf s st = 0 ∧ grow s st = st ∧
      iteration fd s st = Iter.fault NoReturn.heapOverflow := by
  have hav : availableOf s = 65536 := by
    unfold availableOf wrapU32
    rw [hfion]
  have hneed : needOf s st = 0 := by
    unfold needOf wrapU32
    rw [hav, hlen]
  have hg : grow s st = st := by
    unfold grow
    rw [hneed, if_neg (Nat.not_lt_zero _)]
  have hne : bs ≠ [] := by
    intro h
    rw [h] at hbs
    exact absurd hbs (by decide)
  have hroom : bs ≠ [] ∧
      (grow s st).t_length + bs.length > (grow s st).t_capacity := by
    refine ⟨hne, ?_⟩
    rw [hg, hlen, hcap, hbs]
    omega
  refine ⟨hav, hneed, hg, ?_⟩
  unfold iteration
  rw [if_neg (not_grow_failure s st hok), hread]
  dsimp only
  rw [if_pos hroom]

/-- C18, at the failing run: after 65535 reads of 65536 bytes, each preceded by
a successful `realloc`, `t_length` and `t_capacity` are both `2^32 - 65536`.  In
the next iteration 49152 bytes are available, the unsigned sum
`t_length + t_available` is 0, the buffer is not grown, its free capacity is 0,
and `read` is given room for 65536 bytes: the bytes it returns are stored past
the end of the buffer. -/
theorem drain_free_capacity_below_read_count :
    ∃ st, stateAfter 3 (List.replicate 65535 fullStep) drainInit = some st ∧
      st.t_length = 4294901760 ∧ st.t_capacity = 4294901760 ∧
      fullStep.fionread = 49152 ∧ fullStep.reallocOk = true ∧
      needOf fullStep st = 0 ∧
      (grow fullStep st).t_capacity - (grow fullStep st).t_length = 0 ∧
      (grow fullStep st).t_capacity - (grow fullStep st).t_length
        < toSizeT (availableOf fullStep) ∧
      toSizeT (availableOf fullStep) = 65536 ∧
      iteration 3 fullStep st = Iter.fault NoReturn.heapOverflow := by
  have hbs : (List.replicate 65536 (0 : Byte)).length = 65536 :=
    List.length_replicate _ _
  obtain ⟨st, hafter, hlen, hcap, _⟩ :=
    stateAfter_full_reads 3 fullStep (List.replicate 65536 0) rfl rfl rfl hbs
      65535 drainInit 0 rfl rfl rfl (by norm_num)
  have hlen2 : st.t_length = 4294901760 := by rw [hlen]
  have hcap2 : st.t_capacity = 4294901760 := by rw [hcap]
  obtain ⟨hav, hneed, hg, hit⟩ :=
    iteration_full_read_wraps 3 fullStep st (List.replicate 65536 0) rfl rfl rfl
      hbs hlen2 hcap2
  have hsz : toSizeT (availableOf fullStep) = 65536 := by
    rw [hav]
    unfold toSizeT
    rw [if_pos (by norm_num)]
  have hfree :
      (grow fullStep st).t_capacity - (grow fullStep st).t_length = 0 := by
    rw [hg, hlen2, hcap2]
  refine ⟨st, hafter, hlen2, hcap2, rfl, rfl, hneed, hfree, ?_, hsz, hit⟩
  rw [hfree, hsz]
  norm_num
end SrvMac
